import Mathlib

/-!
Verification of the Snapshot Materialization and Mutation Engine of the
market_insights repository, as a shallow embedding in Lean 4.

Python floats are modelled as exact rationals, SQL NULL and unparseable
values as `Option`, calendar dates as a year/month/day structure ordered
lexicographically, Python dicts as association lists, and Python sets as
lists quotiented by membership.  Source functions embedded here:

* `compute_ytd_ralph_metrics`         (src/app/services/sector_snapshot.py)
* `compute_metrics`                   (src/server/jobs/eod_snapshot.py)
* `_compute_metric_from_ohlc`         (src/app/services/sector_snapshot.py)
* `determine_inactive`                (src/server/jobs/eod_snapshot.py)
* `_determine_inactive`               (src/app/services/sector_snapshot.py)
* `aggregate_sectors`                 (src/app/services/sector_snapshot.py)
* `_patch_latest_snapshot_sync`       (src/app/services/sector_snapshot.py)
* `_atomic_write_file` / `_atomic_write`
* `prune_old_rows`                    (src/server/jobs/eod_snapshot.py)
* `AsyncTTLCache.get_or_set`          (src/engine/cache.py)
-/

namespace MarketInsights

/-- Constant `MIN_HISTORY_DAYS = 11` from both snapshot modules. -/
def MIN_HISTORY_DAYS : Nat := 11

/-- Constant `FAILURE_THRESHOLD = 3`. -/
def FAILURE_THRESHOLD : Int := 3

/-- Constant `FAILURE_WINDOW_DAYS = 30`; time is measured in days. -/
def FAILURE_WINDOW_DAYS : Int := 30

/-- Constant `PRUNE_DAYS = 90`. -/
def PRUNE_DAYS : Nat := 90

/-- A calendar date (`datetime.date`), year/month/day. -/
structure CalDate where
  year : Int
  month : Nat
  day : Nat
deriving DecidableEq, Repr

/-- Lexicographic `a ≤ b` on dates, matching Python date comparison. -/
def CalDate.ble (a b : CalDate) : Bool :=
  if a.year < b.year then true
  else if b.year < a.year then false
  else if a.month < b.month then true
  else if b.month < a.month then false
  else a.day ≤ b.day

/-- Lexicographic `a < b` on dates. -/
def CalDate.blt (a b : CalDate) : Bool :=
  if a.year < b.year then true
  else if b.year < a.year then false
  else if a.month < b.month then true
  else if b.month < a.month then false
  else a.day < b.day

/-- A date produced by `datetime.date` always has month ≥ 1 and day ≥ 1. -/
def CalDate.Valid (d : CalDate) : Prop := 1 ≤ d.month ∧ 1 ≤ d.day

instance (d : CalDate) : Decidable d.Valid := by
  unfold CalDate.Valid; infer_instance

/-- Python negative-index slice `xs[-n:]`: the last `n` elements. -/
def lastN (n : Nat) (xs : List α) : List α := xs.drop (xs.length - n)

theorem lastN_length (n : Nat) (xs : List α) :
    (lastN n xs).length = min n xs.length := by
  simp [lastN]; omega

theorem lastN_length_of_le (n : Nat) (xs : List α) (h : n ≤ xs.length) :
    (lastN n xs).length = n := by
  simp [lastN_length]; omega

/-- Python `max` over a list of rationals (meaningful for nonempty input). -/
def listMaxQ : List ℚ → ℚ
  | [] => 0
  | x :: xs => xs.foldl max x

theorem listMaxQ_le_of_forall (x : ℚ) (xs : List ℚ) (b : ℚ)
    (hx : x ≤ b) (h : ∀ y ∈ xs, y ≤ b) : xs.foldl max x ≤ b := by
  induction xs generalizing x with
  | nil => simpa using hx
  | cons y ys ih =>
      simp only [List.foldl_cons]
      refine ih (max x y) (max_le hx (h y (by simp))) ?_
      intro z hz; exact h z (by simp [hz])

theorem le_listMaxQ_foldl (x : ℚ) (xs : List ℚ) : x ≤ xs.foldl max x := by
  induction xs generalizing x with
  | nil => simp
  | cons y ys ih => exact le_trans (le_max_left x y) (ih (max x y))

theorem mem_le_listMaxQ_foldl (x : ℚ) (xs : List ℚ) :
    ∀ y ∈ xs, y ≤ xs.foldl max x := by
  induction xs generalizing x with
  | nil => simp
  | cons z zs ih =>
      intro y hy
      rcases List.mem_cons.mp hy with h | h
      · subst h
        exact le_trans (le_max_right x y) (le_listMaxQ_foldl (max x y) zs)
      · exact ih (max x z) y h

/-- `listMaxQ` bounds every member of a nonempty list. -/
theorem mem_le_listMaxQ (xs : List ℚ) : ∀ y ∈ xs, y ≤ listMaxQ xs := by
  cases xs with
  | nil => simp
  | cons x rest =>
      intro y hy
      rcases List.mem_cons.mp hy with h | h
      · subst h; exact le_listMaxQ_foldl y rest
      · exact mem_le_listMaxQ_foldl x rest y h

theorem listMaxQ_mem (xs : List ℚ) (h : xs ≠ []) : listMaxQ xs ∈ xs := by
  cases xs with
  | nil => simp at h
  | cons x rest =>
      clear h
      simp only [listMaxQ]
      induction rest generalizing x with
      | nil => simp
      | cons y ys ih =>
          simp only [List.foldl_cons]
          rcases List.mem_cons.mp (ih (max x y)) with h | h
          · rcases max_choice x y with hm | hm
            · rw [h, hm]; exact List.mem_cons_self _ _
            · rw [h, hm]; exact List.mem_cons_of_mem _ (List.mem_cons_self _ _)
          · exact List.mem_cons_of_mem _ (List.mem_cons_of_mem _ h)

/-! ## `compute_ytd_ralph_metrics` (sector_snapshot.py lines 236-282)

The Python function receives parallel sequences of dates and closes,
zips them, coerces each date and close (skipping pairs where either
fails to parse), sorts the result stably by date, restricts to the
latest bar's calendar year, and derives the three YTD fields.
Unparseable inputs are modelled as `none`. -/

/-- One normalization step: the `(parsed_date, close_float)` pairs kept by the
loop; a `none` date models a `_coerce_date` failure, a `none` close a
`float()` failure. -/
def normalizeSamples (dates : List (Option CalDate)) (closes : List (Option ℚ)) :
    List (CalDate × ℚ) :=
  (dates.zip closes).filterMap fun p =>
    match p.1, p.2 with
    | some d, some c => some (d, c)
    | _, _ => none

/-- Stable insertion of a sample into a date-sorted list: the new element
goes after all elements with date ≤ its own, matching Python list.sort
stability. -/
def insertByDate (x : CalDate × ℚ) : List (CalDate × ℚ) → List (CalDate × ℚ)
  | [] => [x]
  | y :: ys => if CalDate.ble y.1 x.1 then y :: insertByDate x ys else x :: y :: ys

/-- `normalized.sort(key=lambda item: item[0])` (stable sort by date). -/
def sortByDate (xs : List (CalDate × ℚ)) : List (CalDate × ℚ) :=
  xs.foldl (fun acc x => insertByDate x acc) []

theorem insertByDate_length (x : CalDate × ℚ) (xs : List (CalDate × ℚ)) :
    (insertByDate x xs).length = xs.length + 1 := by
  induction xs with
  | nil => simp [insertByDate]
  | cons y ys ih =>
      simp only [insertByDate]
      split <;> simp [ih]

theorem sortByDate_length (xs : List (CalDate × ℚ)) :
    (sortByDate xs).length = xs.length := by
  suffices h : ∀ acc : List (CalDate × ℚ),
      (xs.foldl (fun acc x => insertByDate x acc) acc).length = acc.length + xs.length by
    simpa using h []
  induction xs with
  | nil => intro acc; simp
  | cons y ys ih =>
      intro acc
      simp only [List.foldl_cons, List.length_cons]
      rw [ih (insertByDate y acc), insertByDate_length]
      omega

theorem insertByDate_mem (x : CalDate × ℚ) (xs : List (CalDate × ℚ)) :
    ∀ z, z ∈ insertByDate x xs ↔ z = x ∨ z ∈ xs := by
  induction xs with
  | nil => intro z; simp [insertByDate]
  | cons y ys ih =>
      intro z
      simp only [insertByDate]
      split
      · simp only [List.mem_cons, ih z]; tauto
      · simp only [List.mem_cons]

theorem sortByDate_mem (xs : List (CalDate × ℚ)) :
    ∀ z, z ∈ sortByDate xs ↔ z ∈ xs := by
  suffices h : ∀ acc : List (CalDate × ℚ), ∀ z,
      z ∈ xs.foldl (fun acc x => insertByDate x acc) acc ↔ z ∈ acc ∨ z ∈ xs by
    intro z; simpa using h [] z
  induction xs with
  | nil => intro acc z; simp
  | cons y ys ih =>
      intro acc z
      simp only [List.foldl_cons, ih (insertByDate y acc) z, insertByDate_mem,
        List.mem_cons]
      tauto

theorem CalDate.ble_iff (a b : CalDate) :
    a.ble b = true ↔
      (a.year < b.year ∨ (a.year = b.year ∧
        (a.month < b.month ∨ (a.month = b.month ∧ a.day ≤ b.day)))) := by
  simp only [CalDate.ble]
  split_ifs <;> simp <;> omega

theorem CalDate.ble_refl (a : CalDate) : a.ble a = true := by
  simp [CalDate.ble_iff]

theorem CalDate.ble_trans {a b c : CalDate}
    (h1 : a.ble b = true) (h2 : b.ble c = true) : a.ble c = true := by
  simp only [CalDate.ble_iff] at *
  omega

theorem CalDate.ble_total (a b : CalDate) : a.ble b = true ∨ b.ble a = true := by
  simp only [CalDate.ble_iff]
  omega

/-- Pairwise-adjacent date order on a sample list. -/
def DateSorted (xs : List (CalDate × ℚ)) : Prop :=
  xs.Chain' fun a b => CalDate.ble a.1 b.1 = true

theorem insertByDate_head (x : CalDate × ℚ) (xs : List (CalDate × ℚ)) :
    (insertByDate x xs).head? = some x ∨
      ∃ y, xs.head? = some y ∧ (insertByDate x xs).head? = some y := by
  cases xs with
  | nil => left; rfl
  | cons y ys =>
      simp only [insertByDate]
      split
      · right; exact ⟨y, rfl, rfl⟩
      · left; rfl

theorem insertByDate_sorted (x : CalDate × ℚ) (xs : List (CalDate × ℚ))
    (h : DateSorted xs) : DateSorted (insertByDate x xs) := by
  induction xs with
  | nil => simp [insertByDate, DateSorted]
  | cons y ys ih =>
      rcases List.chain'_cons'.mp h with ⟨hy, hys⟩
      simp only [insertByDate]
      split
      · rename_i hble
        refine List.chain'_cons'.mpr ⟨?_, ih hys⟩
        intro z hz
        rcases insertByDate_head x ys with hcase | ⟨w, hw, hcase⟩
        · rw [hcase] at hz
          obtain rfl : x = z := by simpa using hz
          exact hble
        · rw [hcase] at hz
          obtain rfl : w = z := by simpa using hz
          exact hy w (Option.mem_def.mpr hw)
      · rename_i hble
        refine List.chain'_cons.mpr ⟨?_, h⟩
        rcases CalDate.ble_total x.1 y.1 with hb | hb
        · exact hb
        · exact absurd hb hble

theorem sortByDate_sorted (xs : List (CalDate × ℚ)) : DateSorted (sortByDate xs) := by
  suffices h : ∀ acc : List (CalDate × ℚ), DateSorted acc →
      DateSorted (xs.foldl (fun acc x => insertByDate x acc) acc) by
    exact h [] (by simp [DateSorted])
  induction xs with
  | nil => intro acc hacc; simpa using hacc
  | cons y ys ih =>
      intro acc hacc
      simpa using ih (insertByDate y acc) (insertByDate_sorted y acc hacc)

/-- The dummy sample used with `headD`/`getLastD` below. -/
def dummySample : CalDate × ℚ := (⟨0, 1, 1⟩, 0)

theorem getLastD_mem {α : Type} (l : List α) (d : α) (h : l ≠ []) :
    l.getLastD d ∈ l := by
  induction l generalizing d with
  | nil => simp at h
  | cons x xs ih =>
      cases xs with
      | nil => simp
      | cons y ys => simpa using Or.inr (ih y (by simp))

theorem headD_mem {α : Type} (l : List α) (d : α) (h : l ≠ []) : l.headD d ∈ l := by
  cases l with
  | nil => simp at h
  | cons x xs => simp

/-- In a date-sorted list, every element's date is ≤ the last element's date. -/
theorem DateSorted.le_getLastD (xs : List (CalDate × ℚ)) (h : DateSorted xs)
    (d : CalDate × ℚ) :
    ∀ z ∈ xs, CalDate.ble z.1 (xs.getLastD d).1 = true := by
  induction xs generalizing d with
  | nil => simp
  | cons x ys ih =>
      intro z hz
      rcases List.chain'_cons'.mp h with ⟨hx, hys⟩
      cases ys with
      | nil =>
          simp only [List.mem_singleton] at hz
          subst hz
          simp [CalDate.ble_refl]
      | cons w ws =>
          have hlast : (x :: w :: ws).getLastD d = (w :: ws).getLastD x := by
            simp only [List.getLastD_cons]
          rw [hlast]
          rcases List.mem_cons.mp hz with hcase | hcase
          · subst hcase
            have hw : CalDate.ble z.1 w.1 = true := hx w rfl
            have hlast2 := ih hys z w (List.mem_cons_self w ws)
            exact CalDate.ble_trans hw hlast2
          · exact ih hys x z hcase

/-- `normalized.sort(...)`: the date-sorted normalized samples. -/
def ytdSorted (dates : List (Option CalDate)) (closes : List (Option ℚ)) :
    List (CalDate × ℚ) :=
  sortByDate (normalizeSamples dates closes)

/-- `latest_date = normalized[-1][0]` after sorting. -/
def ytdLatestDate (dates : List (Option CalDate)) (closes : List (Option ℚ)) :
    CalDate :=
  ((ytdSorted dates closes).getLastD dummySample).1

/-- `ytd_samples`: samples dated on or after `date(latest_date.year, 1, 1)`. -/
def ytdWindow (dates : List (Option CalDate)) (closes : List (Option ℚ)) :
    List (CalDate × ℚ) :=
  (ytdSorted dates closes).filter fun e =>
    CalDate.ble ⟨(ytdLatestDate dates closes).year, 1, 1⟩ e.1

/-- `open_ytd = ytd_samples[0][1]`. -/
def ytdOpen (dates : List (Option CalDate)) (closes : List (Option ℚ)) : ℚ :=
  ((ytdWindow dates closes).headD dummySample).2

/-- `close_latest = ytd_samples[-1][1]`. -/
def ytdCloseLatest (dates : List (Option CalDate)) (closes : List (Option ℚ)) : ℚ :=
  ((ytdWindow dates closes).getLastD dummySample).2

/-- `high_ytd = max(value for _, value in ytd_samples)`. -/
def ytdHigh (dates : List (Option CalDate)) (closes : List (Option ℚ)) : ℚ :=
  listMaxQ ((ytdWindow dates closes).map (·.2))

/-- Embedding of `compute_ytd_ralph_metrics(dates, closes)`.  Returns the
triple `(ytd_gain_to_high_pct, ytd_off_high_pct, ralph_score)`.
The source's `is None` checks on `open_ytd`/`close_latest`/`high_ytd`
are vacuous there (the values are floats by construction) and have no
counterpart on the ℚ-typed model. -/
def compute_ytd_ralph_metrics (dates : List (Option CalDate))
    (closes : List (Option ℚ)) : Option ℚ × Option ℚ × Option ℚ :=
  if dates.isEmpty || closes.isEmpty then (none, none, none) else
  if (normalizeSamples dates closes).isEmpty then (none, none, none) else
  if (ytdWindow dates closes).isEmpty then (none, none, none) else
  let openYtd := ytdOpen dates closes
  let closeLatest := ytdCloseLatest dates closes
  let highYtd := ytdHigh dates closes
  if openYtd ≤ 0 || closeLatest ≤ 0 || highYtd ≤ 0 then (none, none, none) else
  let pctGain := (highYtd / openYtd - 1) * 100
  let pctOff := if 0 < highYtd then max ((1 - closeLatest / highYtd) * 100) 0 else 0
  let denom := max pctOff 1
  let ralphScore := if denom ≠ 0 then some (pctGain / denom) else none
  (some pctGain, some pctOff, ralphScore)

theorem isEmpty_false_of_ne {α : Type} (l : List α) (h : l ≠ []) :
    l.isEmpty = false := by
  cases l with
  | nil => simp at h
  | cons x xs => simp

/-- A sample kept by normalization has its date among the inputs. -/
theorem normalizeSamples_date_mem (dates : List (Option CalDate))
    (closes : List (Option ℚ)) (z : CalDate × ℚ)
    (hz : z ∈ normalizeSamples dates closes) : some z.1 ∈ dates := by
  simp only [normalizeSamples, List.mem_filterMap] at hz
  rcases hz with ⟨p, hp, hmatch⟩
  rcases p with ⟨pd, pc⟩
  have hd : pd = some z.1 := by
    cases pd with
    | none => simp at hmatch
    | some d =>
        cases pc with
        | none => simp at hmatch
        | some c =>
            simp only [Option.some.injEq] at hmatch ⊢
            cases hmatch
            rfl
  rw [← hd]
  exact (List.of_mem_zip hp).1

theorem normalizeSamples_ne_nil_left (dates : List (Option CalDate))
    (closes : List (Option ℚ)) (h : normalizeSamples dates closes ≠ []) :
    dates ≠ [] := by
  intro hd
  subst hd
  simp [normalizeSamples] at h

theorem normalizeSamples_ne_nil_right (dates : List (Option CalDate))
    (closes : List (Option ℚ)) (h : normalizeSamples dates closes ≠ []) :
    closes ≠ [] := by
  intro hc
  subst hc
  simp [normalizeSamples, List.zip_nil_right] at h

/-- Every date in the input parses to a valid calendar date. -/
def validDatesB (dates : List (Option CalDate)) : Bool :=
  dates.all fun o =>
    match o with
    | none => true
    | some cd => decide cd.Valid

theorem validDatesB_mem {dates : List (Option CalDate)} (h : validDatesB dates = true)
    {cd : CalDate} (hm : some cd ∈ dates) : cd.Valid := by
  have := (List.all_eq_true.mp h) (some cd) hm
  simpa using this

/-- January 1 of a valid date's own year is ≤ that date. -/
theorem CalDate.jan1_ble (d : CalDate) (h : d.Valid) :
    CalDate.ble ⟨d.year, 1, 1⟩ d = true := by
  rcases h with ⟨hm, hd⟩
  rcases Nat.lt_or_ge 1 d.month with h1 | h1
  · exact (CalDate.ble_iff _ _).mpr (Or.inr ⟨rfl, Or.inl h1⟩)
  · have hm1 : (1 : Nat) = d.month := le_antisymm hm h1
    exact (CalDate.ble_iff _ _).mpr (Or.inr ⟨rfl, Or.inr ⟨hm1, hd⟩⟩)

theorem ytdSorted_ne_nil (dates : List (Option CalDate)) (closes : List (Option ℚ))
    (h : normalizeSamples dates closes ≠ []) : ytdSorted dates closes ≠ [] := by
  intro hs
  apply h
  have := sortByDate_length (normalizeSamples dates closes)
  rw [show sortByDate (normalizeSamples dates closes) = ytdSorted dates closes from rfl,
    hs] at this
  exact List.length_eq_zero.mp this.symm

/-- The last sorted sample is a member of the window (its date lies in its own
year), so the YTD window is never empty when any sample parsed. -/
theorem ytdWindow_ne_nil (dates : List (Option CalDate)) (closes : List (Option ℚ))
    (hv : validDatesB dates = true)
    (h : normalizeSamples dates closes ≠ []) : ytdWindow dates closes ≠ [] := by
  have hs := ytdSorted_ne_nil dates closes h
  have hmem : (ytdSorted dates closes).getLastD dummySample ∈ ytdSorted dates closes :=
    getLastD_mem _ _ hs
  have hnorm : (ytdSorted dates closes).getLastD dummySample ∈
      normalizeSamples dates closes :=
    (sortByDate_mem (normalizeSamples dates closes) _).mp hmem
  have hvd : ((ytdSorted dates closes).getLastD dummySample).1.Valid :=
    validDatesB_mem hv (normalizeSamples_date_mem dates closes _ hnorm)
  have hcond : CalDate.ble ⟨(ytdLatestDate dates closes).year, 1, 1⟩
      ((ytdSorted dates closes).getLastD dummySample).1 = true :=
    CalDate.jan1_ble _ hvd
  have : (ytdSorted dates closes).getLastD dummySample ∈ ytdWindow dates closes := by
    simp only [ytdWindow, List.mem_filter]
    exact ⟨hmem, hcond⟩
  exact List.ne_nil_of_mem this

/-- C8: for every input of dated closes, the YTD computation restricts to the
samples dated on or after January 1 of the latest sample's year (the window is
nonempty whenever any sample parsed, and the reference date really is the
latest); `open_ytd` is the window's first close, `close_latest` its last close,
`high_ytd` its maximal close; when all three are positive the function returns
`ytd_gain_to_high_pct = (high/open − 1)·100`,
`ytd_off_high_pct = max((1 − close/high)·100, 0)` and
`ralph_score = gain / max(off_high, 1)`, and any missing or non-positive input
yields all three fields `none`. -/
theorem ytd_metrics_spec (dates : List (Option CalDate)) (closes : List (Option ℚ))
    (hv : validDatesB dates = true) :
    (normalizeSamples dates closes = [] →
      compute_ytd_ralph_metrics dates closes = (none, none, none)) ∧
    (normalizeSamples dates closes ≠ [] →
      (∀ z ∈ normalizeSamples dates closes,
          CalDate.ble z.1 (ytdLatestDate dates closes) = true) ∧
      ytdWindow dates closes ≠ [] ∧
      (∀ z ∈ ytdWindow dates closes, z.2 ≤ ytdHigh dates closes) ∧
      ytdHigh dates closes ∈ (ytdWindow dates closes).map (·.2) ∧
      (0 < ytdOpen dates closes → 0 < ytdCloseLatest dates closes →
        0 < ytdHigh dates closes →
        compute_ytd_ralph_metrics dates closes =
          (some ((ytdHigh dates closes / ytdOpen dates closes - 1) * 100),
           some (max ((1 - ytdCloseLatest dates closes / ytdHigh dates closes) * 100) 0),
           some (((ytdHigh dates closes / ytdOpen dates closes - 1) * 100) /
             max (max ((1 - ytdCloseLatest dates closes / ytdHigh dates closes) * 100) 0)
               1))) ∧
      ((ytdOpen dates closes ≤ 0 ∨ ytdCloseLatest dates closes ≤ 0 ∨
          ytdHigh dates closes ≤ 0) →
        compute_ytd_ralph_metrics dates closes = (none, none, none))) := by
  constructor
  · intro hnil
    simp only [compute_ytd_ralph_metrics, hnil]
    split <;> simp
  · intro hne
    refine ⟨?_, ?_, ?_, ?_, ?_, ?_⟩
    · intro z hz
      have hzs : z ∈ ytdSorted dates closes :=
        (sortByDate_mem (normalizeSamples dates closes) z).mpr hz
      exact (sortByDate_sorted (normalizeSamples dates closes)).le_getLastD
        (ytdSorted dates closes) dummySample z hzs
    · exact ytdWindow_ne_nil dates closes hv hne
    · intro z hz
      exact mem_le_listMaxQ _ z.2 (List.mem_map_of_mem (·.2) hz)
    · exact listMaxQ_mem _ (by
        intro hmap
        exact ytdWindow_ne_nil dates closes hv hne (List.map_eq_nil_iff.mp hmap))
    · intro ho hc hh
      have hD := isEmpty_false_of_ne dates (normalizeSamples_ne_nil_left _ _ hne)
      have hC := isEmpty_false_of_ne closes (normalizeSamples_ne_nil_right _ _ hne)
      have hN := isEmpty_false_of_ne _ hne
      have hW := isEmpty_false_of_ne _ (ytdWindow_ne_nil dates closes hv hne)
      have hdenom :
          max (max ((1 - ytdCloseLatest dates closes / ytdHigh dates closes) * 100) 0)
            1 ≠ 0 := by
        intro h0
        have := le_max_right
          (max ((1 - ytdCloseLatest dates closes / ytdHigh dates closes) * 100) 0)
          (1 : ℚ)
        rw [h0] at this
        norm_num at this
      simp only [compute_ytd_ralph_metrics, hD, hC, hN, hW, Bool.or_self,
        Bool.false_eq_true, if_false, not_le.mpr ho, not_le.mpr hc, not_le.mpr hh,
        decide_False, Bool.or_false, if_pos hh]
      rw [if_pos hdenom]
    · intro hcase
      have hD := isEmpty_false_of_ne dates (normalizeSamples_ne_nil_left _ _ hne)
      have hC := isEmpty_false_of_ne closes (normalizeSamples_ne_nil_right _ _ hne)
      have hN := isEmpty_false_of_ne _ hne
      have hW := isEmpty_false_of_ne _ (ytdWindow_ne_nil dates closes hv hne)
      have hb : (decide (ytdOpen dates closes ≤ 0) ||
          decide (ytdCloseLatest dates closes ≤ 0) ||
          decide (ytdHigh dates closes ≤ 0)) = true := by
        rcases hcase with h | h | h <;> simp [h]
      simp only [compute_ytd_ralph_metrics, hD, hC, hN, hW, Bool.or_self,
        Bool.false_eq_true, if_false, hb, if_true]

/-- Concrete input for the C8 witness: two samples in January 2024. -/
def ytdWitDates : List (Option CalDate) := [some ⟨2024, 1, 2⟩, some ⟨2024, 1, 3⟩]

/-- Concrete closes for the C8 witness. -/
def ytdWitCloses : List (Option ℚ) := [some 10, some 12]

theorem ytd_metrics_spec_witness :
    compute_ytd_ralph_metrics ytdWitDates ytdWitCloses =
      (some ((ytdHigh ytdWitDates ytdWitCloses / ytdOpen ytdWitDates ytdWitCloses - 1)
          * 100),
       some (max ((1 - ytdCloseLatest ytdWitDates ytdWitCloses /
           ytdHigh ytdWitDates ytdWitCloses) * 100) 0),
       some (((ytdHigh ytdWitDates ytdWitCloses / ytdOpen ytdWitDates ytdWitCloses - 1)
           * 100) /
         max (max ((1 - ytdCloseLatest ytdWitDates ytdWitCloses /
             ytdHigh ytdWitDates ytdWitCloses) * 100) 0) 1)) :=
  ((ytd_metrics_spec ytdWitDates ytdWitCloses (by decide)).2 (by decide)).2.2.2.2.1
    (by decide) (by decide) (by decide)

/-! ## Per-symbol metric computation

`compute_metrics` (server/jobs/eod_snapshot.py lines 566-668) and
`_compute_metric_from_ohlc` (app/services/sector_snapshot.py lines 396-522).
A database row's nullable column is an `Option`; `float()` on a DOUBLE
column value never fails, so a row is *valid* exactly when its
date/close/volume/dollar_volume columns are all non-NULL. -/

/-- Left-pad a number to two digits, as `date.isoformat` does. -/
def pad2 (n : Nat) : String :=
  if n < 10 then "0" ++ toString n else toString n

/-- `date.isoformat()`. -/
def CalDate.iso (d : CalDate) : String :=
  toString d.year ++ "-" ++ pad2 d.month ++ "-" ++ pad2 d.day

/-- Python `str.strip()` (ASCII whitespace), implemented structurally on the
character list so that concrete instances evaluate. -/
def pyStrip (s : String) : String :=
  String.mk
    (((s.data.dropWhile Char.isWhitespace).reverse.dropWhile
        Char.isWhitespace).reverse)

/-- Python `str.upper()` (ASCII), implemented structurally. -/
def pyUpper (s : String) : String :=
  String.mk (s.data.map Char.toUpper)

/-- A row of the `ticker_ohlc` query in `compute_metrics` (the eod job
renders the date with `isoformat`/`str` immediately, so it is kept as a
string here). -/
structure EodRow where
  date : Option String
  close : Option ℚ
  volume : Option ℚ
  dollar_volume : Option ℚ
deriving DecidableEq, Repr

/-- A row of the `ticker_ohlc` query in `_compute_metric_from_ohlc`
(date, close, volume, dollar_volume, high, low). -/
structure OhlcRow where
  date : Option CalDate
  close : Option ℚ
  volume : Option ℚ
  dollar_volume : Option ℚ
  high : Option ℚ
  low : Option ℚ
deriving DecidableEq, Repr

/-- One `{date, close, volume, dollarVolume}` history record; fields are
optional because JSON-loaded records may omit keys. -/
structure HistEntry where
  date : Option String := none
  close : Option ℚ := none
  volume : Option ℚ := none
  dollarVolume : Option ℚ := none
deriving DecidableEq, Repr

/-- The `TickerMetric` dataclass of app/services/sector_snapshot.py. -/
structure TickerMetric where
  symbol : String
  last_date : Option String
  dollar_vol_today : Option ℚ
  avg_dollar_vol10 : Option ℚ
  rel_vol10 : Option ℚ
  change1d : Option ℚ
  change5d : Option ℚ
  dollar_vol5d : Option ℚ
  history : List HistEntry
  adr20_pct : Option ℚ := none
  ytd_gain_to_high_pct : Option ℚ := none
  ytd_off_high_pct : Option ℚ := none
  ralph_score : Option ℚ := none
deriving DecidableEq, Repr

instance : Inhabited TickerMetric :=
  ⟨{ symbol := "", last_date := none, dollar_vol_today := none,
     avg_dollar_vol10 := none, rel_vol10 := none, change1d := none,
     change5d := none, dollar_vol5d := none, history := [] }⟩

/-- Rows surviving the parse loop of `compute_metrics` (all four columns
non-NULL), as `(date_str, close, volume, dollar_volume)`. -/
def validEodRows (rows : List EodRow) : List (String × ℚ × ℚ × ℚ) :=
  rows.filterMap fun r =>
    match r.date, r.close, r.volume, r.dollar_volume with
    | some d, some c, some v, some dv => some (d, c, v, dv)
    | _, _, _, _ => none

/-- The `dates` series of `compute_metrics`. -/
def eodDates (rows : List EodRow) : List String := (validEodRows rows).map (·.1)

/-- The `closes` series of `compute_metrics`. -/
def eodCloses (rows : List EodRow) : List ℚ := (validEodRows rows).map (·.2.1)

/-- The `volumes` series of `compute_metrics`. -/
def eodVolumes (rows : List EodRow) : List ℚ := (validEodRows rows).map (·.2.2.1)

/-- The `dollar_vols` series of `compute_metrics`. -/
def eodDollarVols (rows : List EodRow) : List ℚ :=
  (validEodRows rows).map (·.2.2.2)

/-- `prev_dollar_vols = dollar_vols[-MIN_HISTORY_DAYS:-1]`. -/
def eodPrevDollarVols (rows : List EodRow) : List ℚ :=
  (lastN MIN_HISTORY_DAYS (eodDollarVols rows)).dropLast

/-- `avg_dollar_vol10 = sum(prev_dollar_vols[-10:]) / 10.0`. -/
def eodAvgDollarVol10 (rows : List EodRow) : ℚ :=
  (lastN 10 (eodPrevDollarVols rows)).sum / 10

/-- `dollar_vol_today = dollar_vols[-1]`. -/
def eodDollarVolToday (rows : List EodRow) : ℚ :=
  (eodDollarVols rows).getLastD 0

/-- Embedding of `compute_metrics(conn, symbol)` over the symbol's ordered
`ticker_ohlc` rows. -/
def compute_metrics (symbol : String) (rows : List EodRow) : Option TickerMetric :=
  if rows.length < 2 then none else
  let dates := eodDates rows
  let closes := eodCloses rows
  let volumes := eodVolumes rows
  let dollar_vols := eodDollarVols rows
  if closes.length < MIN_HISTORY_DAYS || dates.length < MIN_HISTORY_DAYS ||
      volumes.length < MIN_HISTORY_DAYS then none else
  let prev_dollar_vols := eodPrevDollarVols rows
  if prev_dollar_vols.length < MIN_HISTORY_DAYS - 1 then none else
  let avg_dollar_vol10 := eodAvgDollarVol10 rows
  let dollar_vol_today := eodDollarVolToday rows
  let change5d : Option ℚ :=
    if 6 ≤ closes.length then
      let base := closes.getD (closes.length - 6) 0
      if base ≠ 0 then some ((closes.getLastD 0 / base - 1) * 100) else none
    else none
  let dollar_vol5d : Option ℚ :=
    if 5 ≤ dollar_vols.length then some (lastN 5 dollar_vols).sum else none
  if closes.length < 2 then none else
  let prev_close := closes.getD (closes.length - 2) 0
  let change1d : Option ℚ :=
    if prev_close ≠ 0 then some ((closes.getLastD 0 / prev_close - 1) * 100) else none
  let rel_vol10 : Option ℚ :=
    if avg_dollar_vol10 ≠ 0 then some (dollar_vol_today / avg_dollar_vol10) else none
  let history := (lastN 30 (validEodRows rows)).map fun q =>
    ({ date := some q.1, close := some q.2.1, volume := some q.2.2.1,
       dollarVolume := some q.2.2.2 } : HistEntry)
  some { symbol := symbol, last_date := some (dates.getLastD ""),
         dollar_vol_today := some dollar_vol_today,
         avg_dollar_vol10 := some avg_dollar_vol10,
         rel_vol10 := rel_vol10, change1d := change1d, change5d := change5d,
         dollar_vol5d := dollar_vol5d, history := history }

/-- Rows surviving the parse loop of `_compute_metric_from_ohlc` (date,
close, volume, dollar_volume non-NULL; high/low stay optional). -/
def validOhlcRows (rows : List OhlcRow) :
    List (CalDate × ℚ × ℚ × ℚ × Option ℚ × Option ℚ) :=
  rows.filterMap fun r =>
    match r.date, r.close, r.volume, r.dollar_volume with
    | some d, some c, some v, some dv => some (d, c, v, dv, r.high, r.low)
    | _, _, _, _ => none

/-- The `range_ratios` series: high/low for valid rows with both present,
nonzero low, and positive quotient. -/
def ohlcRangeRatios (rows : List OhlcRow) : List ℚ :=
  (validOhlcRows rows).filterMap fun r =>
    match r.2.2.2.2.1, r.2.2.2.2.2 with
    | some h, some l =>
        if l ≠ 0 then (if 0 < h / l then some (h / l) else none) else none
    | _, _ => none

/-- The `dollar_vols` series of `_compute_metric_from_ohlc`. -/
def ohlcDollarVols (rows : List OhlcRow) : List ℚ :=
  (validOhlcRows rows).map (·.2.2.2.1)

/-- `prev_dollar_vols = dollar_vols[-MIN_HISTORY_DAYS:-1]` (sector variant). -/
def ohlcPrevDollarVols (rows : List OhlcRow) : List ℚ :=
  (lastN MIN_HISTORY_DAYS (ohlcDollarVols rows)).dropLast

/-- `avg_dollar_vol10` (sector variant). -/
def ohlcAvgDollarVol10 (rows : List OhlcRow) : ℚ :=
  (lastN 10 (ohlcPrevDollarVols rows)).sum / 10

/-- `dollar_vol_today` (sector variant). -/
def ohlcDollarVolToday (rows : List OhlcRow) : ℚ :=
  (ohlcDollarVols rows).getLastD 0

/-- Embedding of `_compute_metric_from_ohlc(conn, symbol)` over the symbol's
ordered `ticker_ohlc` rows. -/
def compute_metric_from_ohlc (symbol : String) (rows : List OhlcRow) :
    Option TickerMetric :=
  if rows.length < MIN_HISTORY_DAYS then none else
  let valid := validOhlcRows rows
  let date_objs := valid.map (·.1)
  let dates := date_objs.map CalDate.iso
  let closes := valid.map (·.2.1)
  let dollar_vols := ohlcDollarVols rows
  let ytd := compute_ytd_ralph_metrics (date_objs.map some) (closes.map some)
  if dates.length < MIN_HISTORY_DAYS || closes.length < MIN_HISTORY_DAYS
    then none else
  let prev_dollar_vols := ohlcPrevDollarVols rows
  if prev_dollar_vols.length < 10 then none else
  let avg_dollar_vol10 := ohlcAvgDollarVol10 rows
  let dollar_vol_today := ohlcDollarVolToday rows
  let change5d : Option ℚ :=
    if 6 ≤ closes.length then
      let base := closes.getD (closes.length - 6) 0
      if base ≠ 0 then some ((closes.getLastD 0 / base - 1) * 100) else none
    else none
  let dollar_vol5d : Option ℚ :=
    if 5 ≤ dollar_vols.length then some (lastN 5 dollar_vols).sum else none
  if closes.length < 2 then none else
  let prev_close := closes.getD (closes.length - 2) 0
  let change1d : Option ℚ :=
    if prev_close ≠ 0 then some ((closes.getLastD 0 / prev_close - 1) * 100) else none
  let rel_vol10 : Option ℚ :=
    if avg_dollar_vol10 ≠ 0 then some (dollar_vol_today / avg_dollar_vol10) else none
  let history := (lastN 30 valid).map fun q =>
    ({ date := some q.1.iso, close := some q.2.1, volume := some q.2.2.1,
       dollarVolume := some q.2.2.2.1 } : HistEntry)
  let rr := ohlcRangeRatios rows
  let adr20_pct : Option ℚ :=
    if 20 ≤ rr.length then some (((lastN 20 rr).sum / 20 - 1) * 100) else none
  some { symbol := pyUpper (pyStrip symbol), last_date := some (dates.getLastD ""),
         dollar_vol_today := some dollar_vol_today,
         avg_dollar_vol10 := some avg_dollar_vol10,
         rel_vol10 := rel_vol10, change1d := change1d, change5d := change5d,
         dollar_vol5d := dollar_vol5d, history := history,
         adr20_pct := adr20_pct, ytd_gain_to_high_pct := ytd.1,
         ytd_off_high_pct := ytd.2.1, ralph_score := ytd.2.2 }

theorem lastN_eq_self {α : Type} (n : Nat) (xs : List α) (h : xs.length ≤ n) :
    lastN n xs = xs := by
  simp [lastN, Nat.sub_eq_zero_of_le h]

theorem getLastD_irrel {α : Type} (l : List α) (h : l ≠ []) (d d' : α) :
    l.getLastD d = l.getLastD d' := by
  cases l with
  | nil => exact absurd rfl h
  | cons x xs => simp only [List.getLastD_cons]

theorem getLastD_drop {α : Type} (xs : List α) (m : Nat) (d : α)
    (h : xs.drop m ≠ []) : (xs.drop m).getLastD d = xs.getLastD d := by
  induction xs generalizing m with
  | nil => simp at h
  | cons x xs ih =>
      cases m with
      | zero => rfl
      | succ k =>
          have h2 : xs.drop k ≠ [] := by simpa using h
          have hxs : xs ≠ [] := by
            intro hx; rw [hx] at h2; simp at h2
          rw [List.drop_succ_cons] at h ⊢
          rw [ih k h2, List.getLastD_cons]
          exact getLastD_irrel xs hxs d x

theorem lastN_getLastD {α : Type} (n : Nat) (xs : List α) (d : α)
    (h : lastN n xs ≠ []) : (lastN n xs).getLastD d = xs.getLastD d :=
  getLastD_drop xs _ d h

theorem dropLast_append_getLastD {α : Type} (l : List α) (d : α) (h : l ≠ []) :
    l.dropLast ++ [l.getLastD d] = l := by
  induction l with
  | nil => simp at h
  | cons x xs ih =>
      cases xs with
      | nil => simp
      | cons y ys =>
          have h2 : (y :: ys) ≠ [] := by simp
          have hr : (x :: y :: ys).getLastD d = (y :: ys).getLastD d := by
            rw [List.getLastD_cons]
            exact getLastD_irrel (y :: ys) h2 x d
          simp only [List.dropLast_cons₂, List.cons_append, hr, ih h2]

/-- `xs[-n:]` decomposes as its leading part plus the very last element of
`xs`, when `xs` has at least `n ≥ 1` elements. -/
theorem lastN_decomp {α : Type} (n : Nat) (xs : List α) (d : α)
    (h1 : 1 ≤ n) (h2 : n ≤ xs.length) :
    lastN n xs = (lastN n xs).dropLast ++ [xs.getLastD d] := by
  have hlen := lastN_length_of_le n xs h2
  have hne : lastN n xs ≠ [] := by
    intro hnil
    rw [hnil] at hlen
    simp at hlen
    omega
  rw [← lastN_getLastD n xs d hne]
  exact (dropLast_append_getLastD _ d hne).symm

theorem eodCloses_length (rows : List EodRow) :
    (eodCloses rows).length = (validEodRows rows).length := by
  simp [eodCloses]

theorem eodDates_length (rows : List EodRow) :
    (eodDates rows).length = (validEodRows rows).length := by
  simp [eodDates]

theorem eodVolumes_length (rows : List EodRow) :
    (eodVolumes rows).length = (validEodRows rows).length := by
  simp [eodVolumes]

theorem eodDollarVols_length (rows : List EodRow) :
    (eodDollarVols rows).length = (validEodRows rows).length := by
  simp [eodDollarVols]

theorem validEodRows_length_le (rows : List EodRow) :
    (validEodRows rows).length ≤ rows.length :=
  List.length_filterMap_le _ _

/-- Fewer than 11 valid bars: `compute_metrics` yields no metric. -/
theorem compute_metrics_none (s : String) (rows : List EodRow)
    (h : (validEodRows rows).length < MIN_HISTORY_DAYS) :
    compute_metrics s rows = none := by
  by_cases h2 : rows.length < 2
  · simp [compute_metrics, h2]
  · have hc : (eodCloses rows).length < MIN_HISTORY_DAYS := by
      rw [eodCloses_length]; exact h
    simp [compute_metrics, h2, hc]

theorem eodPrevDollarVols_length (rows : List EodRow)
    (h : MIN_HISTORY_DAYS ≤ (validEodRows rows).length) :
    (eodPrevDollarVols rows).length = 10 := by
  have hdv := eodDollarVols_length rows
  simp only [MIN_HISTORY_DAYS] at h ⊢
  have hl : (lastN 11 (eodDollarVols rows)).length = 11 := by
    apply lastN_length_of_le
    omega
  simp [eodPrevDollarVols, List.length_dropLast, MIN_HISTORY_DAYS, hl]

/-- At least 11 valid bars: `compute_metrics` yields the full metric record. -/
theorem compute_metrics_eq (s : String) (rows : List EodRow)
    (h : MIN_HISTORY_DAYS ≤ (validEodRows rows).length) :
    compute_metrics s rows = some
      { symbol := s, last_date := some ((eodDates rows).getLastD ""),
        dollar_vol_today := some (eodDollarVolToday rows),
        avg_dollar_vol10 := some (eodAvgDollarVol10 rows),
        rel_vol10 := if eodAvgDollarVol10 rows ≠ 0 then
            some (eodDollarVolToday rows / eodAvgDollarVol10 rows) else none,
        change1d := if (eodCloses rows).getD ((eodCloses rows).length - 2) 0 ≠ 0
          then some (((eodCloses rows).getLastD 0 /
              (eodCloses rows).getD ((eodCloses rows).length - 2) 0 - 1) * 100)
          else none,
        change5d := if 6 ≤ (eodCloses rows).length then
            (if (eodCloses rows).getD ((eodCloses rows).length - 6) 0 ≠ 0 then
              some (((eodCloses rows).getLastD 0 /
                (eodCloses rows).getD ((eodCloses rows).length - 6) 0 - 1) * 100)
             else none)
          else none,
        dollar_vol5d := if 5 ≤ (eodDollarVols rows).length then
            some (lastN 5 (eodDollarVols rows)).sum else none,
        history := (lastN 30 (validEodRows rows)).map fun q =>
          ({ date := some q.1, close := some q.2.1, volume := some q.2.2.1,
             dollarVolume := some q.2.2.2 } : HistEntry) } := by
  have hrows := validEodRows_length_le rows
  have h2 : ¬ rows.length < 2 := by
    simp only [MIN_HISTORY_DAYS] at h; omega
  have hc : ¬ (eodCloses rows).length < MIN_HISTORY_DAYS := by
    rw [eodCloses_length]; omega
  have hd : ¬ (eodDates rows).length < MIN_HISTORY_DAYS := by
    rw [eodDates_length]; omega
  have hv : ¬ (eodVolumes rows).length < MIN_HISTORY_DAYS := by
    rw [eodVolumes_length]; omega
  have hprev : ¬ (eodPrevDollarVols rows).length < MIN_HISTORY_DAYS - 1 := by
    rw [eodPrevDollarVols_length rows h]
    simp [MIN_HISTORY_DAYS]
  have hc2 : ¬ (eodCloses rows).length < 2 := by
    rw [eodCloses_length]
    simp only [MIN_HISTORY_DAYS] at h; omega
  simp only [compute_metrics, h2, hc, hd, hv, hprev, hc2, if_false, decide_False,
    Bool.or_self, Bool.or_false, Bool.false_or, ite_false]
  rfl

theorem ohlcDollarVols_length (rows : List OhlcRow) :
    (ohlcDollarVols rows).length = (validOhlcRows rows).length := by
  simp [ohlcDollarVols]

theorem validOhlcRows_length_le (rows : List OhlcRow) :
    (validOhlcRows rows).length ≤ rows.length :=
  List.length_filterMap_le _ _

/-- Fewer than 11 valid bars: `_compute_metric_from_ohlc` yields no metric. -/
theorem compute_metric_from_ohlc_none (s : String) (rows : List OhlcRow)
    (h : (validOhlcRows rows).length < MIN_HISTORY_DAYS) :
    compute_metric_from_ohlc s rows = none := by
  by_cases h2 : rows.length < MIN_HISTORY_DAYS
  · simp [compute_metric_from_ohlc, h2]
  · simp [compute_metric_from_ohlc, h2, h]

theorem ohlcPrevDollarVols_length (rows : List OhlcRow)
    (h : MIN_HISTORY_DAYS ≤ (validOhlcRows rows).length) :
    (ohlcPrevDollarVols rows).length = 10 := by
  have hdv := ohlcDollarVols_length rows
  simp only [MIN_HISTORY_DAYS] at h ⊢
  have hl : (lastN 11 (ohlcDollarVols rows)).length = 11 := by
    apply lastN_length_of_le
    omega
  simp [ohlcPrevDollarVols, List.length_dropLast, MIN_HISTORY_DAYS, hl]

/-- At least 11 valid bars: `_compute_metric_from_ohlc` yields the full
metric record. -/
theorem compute_metric_from_ohlc_eq (s : String) (rows : List OhlcRow)
    (h : MIN_HISTORY_DAYS ≤ (validOhlcRows rows).length) :
    compute_metric_from_ohlc s rows = some
      { symbol := pyUpper (pyStrip s),
        last_date := some
          ((((validOhlcRows rows).map (·.1)).map CalDate.iso).getLastD ""),
        dollar_vol_today := some (ohlcDollarVolToday rows),
        avg_dollar_vol10 := some (ohlcAvgDollarVol10 rows),
        rel_vol10 := if ohlcAvgDollarVol10 rows ≠ 0 then
            some (ohlcDollarVolToday rows / ohlcAvgDollarVol10 rows) else none,
        change1d := if ((validOhlcRows rows).map (·.2.1)).getD
            (((validOhlcRows rows).map (·.2.1)).length - 2) 0 ≠ 0
          then some ((((validOhlcRows rows).map (·.2.1)).getLastD 0 /
              ((validOhlcRows rows).map (·.2.1)).getD
                (((validOhlcRows rows).map (·.2.1)).length - 2) 0 - 1) * 100)
          else none,
        change5d := if 6 ≤ ((validOhlcRows rows).map (·.2.1)).length then
            (if ((validOhlcRows rows).map (·.2.1)).getD
                (((validOhlcRows rows).map (·.2.1)).length - 6) 0 ≠ 0 then
              some ((((validOhlcRows rows).map (·.2.1)).getLastD 0 /
                ((validOhlcRows rows).map (·.2.1)).getD
                  (((validOhlcRows rows).map (·.2.1)).length - 6) 0 - 1) * 100)
             else none)
          else none,
        dollar_vol5d := if 5 ≤ (ohlcDollarVols rows).length then
            some (lastN 5 (ohlcDollarVols rows)).sum else none,
        history := (lastN 30 (validOhlcRows rows)).map fun q =>
          ({ date := some q.1.iso, close := some q.2.1, volume := some q.2.2.1,
             dollarVolume := some q.2.2.2.1 } : HistEntry),
        adr20_pct := if 20 ≤ (ohlcRangeRatios rows).length then
            some (((lastN 20 (ohlcRangeRatios rows)).sum / 20 - 1) * 100)
          else none,
        ytd_gain_to_high_pct := (compute_ytd_ralph_metrics
          (((validOhlcRows rows).map (·.1)).map some)
          (((validOhlcRows rows).map (·.2.1)).map some)).1,
        ytd_off_high_pct := (compute_ytd_ralph_metrics
          (((validOhlcRows rows).map (·.1)).map some)
          (((validOhlcRows rows).map (·.2.1)).map some)).2.1,
        ralph_score := (compute_ytd_ralph_metrics
          (((validOhlcRows rows).map (·.1)).map some)
          (((validOhlcRows rows).map (·.2.1)).map some)).2.2 } := by
  have hrows := validOhlcRows_length_le rows
  have h2 : ¬ rows.length < MIN_HISTORY_DAYS := by omega
  have hd : ¬ (((validOhlcRows rows).map (·.1)).map CalDate.iso).length <
      MIN_HISTORY_DAYS := by
    simp only [List.length_map]; omega
  have hc : ¬ ((validOhlcRows rows).map (·.2.1)).length < MIN_HISTORY_DAYS := by
    simp only [List.length_map]; omega
  have hprev : ¬ (ohlcPrevDollarVols rows).length < 10 := by
    rw [ohlcPrevDollarVols_length rows h]
    simp
  have hc2 : ¬ ((validOhlcRows rows).map (·.2.1)).length < 2 := by
    simp only [List.length_map]
    simp only [MIN_HISTORY_DAYS] at h; omega
  simp only [compute_metric_from_ohlc, h2, hd, hc, hprev, hc2, if_false,
    decide_False, Bool.or_self, Bool.or_false, Bool.false_or, ite_false]
  rfl

/-- C3: for every symbol whose stored bar history contains fewer than 11
valid bars, metric computation (both the eod-job variant and the sector
variant) returns no metric; with at least 11 valid bars both return a
metric. -/
theorem metric_gating :
    (∀ (s : String) (rows : List EodRow),
        (validEodRows rows).length < MIN_HISTORY_DAYS →
        compute_metrics s rows = none) ∧
    (∀ (s : String) (rows : List EodRow),
        MIN_HISTORY_DAYS ≤ (validEodRows rows).length →
        (compute_metrics s rows).isSome = true) ∧
    (∀ (s : String) (rows : List OhlcRow),
        (validOhlcRows rows).length < MIN_HISTORY_DAYS →
        compute_metric_from_ohlc s rows = none) ∧
    (∀ (s : String) (rows : List OhlcRow),
        MIN_HISTORY_DAYS ≤ (validOhlcRows rows).length →
        (compute_metric_from_ohlc s rows).isSome = true) := by
  refine ⟨compute_metrics_none, ?_, compute_metric_from_ohlc_none, ?_⟩
  · intro s rows h
    rw [compute_metrics_eq s rows h]
    rfl
  · intro s rows h
    rw [compute_metric_from_ohlc_eq s rows h]
    rfl

/-- A synthetic valid eod row. -/
def mkEodRow (i : Nat) : EodRow :=
  { date := some (toString i), close := some ((i + 1 : Nat) : ℚ),
    volume := some 1, dollar_volume := some ((i + 1 : Nat) : ℚ) }

/-- `n` synthetic valid eod rows. -/
def eodRowsN (n : Nat) : List EodRow := (List.range n).map mkEodRow

/-- A synthetic valid ohlc row. -/
def mkOhlcRow (i : Nat) : OhlcRow :=
  { date := some ⟨2024, 1, i + 1⟩, close := some ((i + 1 : Nat) : ℚ),
    volume := some 1, dollar_volume := some ((i + 1 : Nat) : ℚ),
    high := some 2, low := some 1 }

/-- `n` synthetic valid ohlc rows. -/
def ohlcRowsN (n : Nat) : List OhlcRow := (List.range n).map mkOhlcRow

theorem metric_gating_witness :
    compute_metrics "AAA" (eodRowsN 10) = none ∧
    (compute_metrics "AAA" (eodRowsN 11)).isSome = true ∧
    compute_metric_from_ohlc "AAA" (ohlcRowsN 10) = none ∧
    (compute_metric_from_ohlc "AAA" (ohlcRowsN 11)).isSome = true :=
  ⟨metric_gating.1 "AAA" (eodRowsN 10) (by decide),
   metric_gating.2.1 "AAA" (eodRowsN 11) (by decide),
   metric_gating.2.2.1 "AAA" (ohlcRowsN 10) (by decide),
   metric_gating.2.2.2 "AAA" (ohlcRowsN 11) (by decide)⟩

/-- C9: for every symbol with a computed metric, `avg_dollar_vol10` is the
arithmetic mean of the 10 dollar-volumes immediately preceding the latest
bar (the window of the last 11 dollar-volumes splits into those 10 plus the
latest), `dollar_vol_today` is the latest bar's dollar-volume, and
`rel_vol10 = dollar_vol_today / avg_dollar_vol10`, null when the average is
zero; this holds for both metric-computation variants. -/
theorem relvol_spec :
    (∀ (s : String) (rows : List EodRow) (m : TickerMetric),
        compute_metrics s rows = some m →
        (eodPrevDollarVols rows).length = 10 ∧
        lastN MIN_HISTORY_DAYS (eodDollarVols rows) =
          eodPrevDollarVols rows ++ [eodDollarVolToday rows] ∧
        m.avg_dollar_vol10 = some ((eodPrevDollarVols rows).sum / 10) ∧
        m.dollar_vol_today = some (eodDollarVolToday rows) ∧
        ((eodPrevDollarVols rows).sum / 10 ≠ 0 →
          m.rel_vol10 = some (eodDollarVolToday rows /
            ((eodPrevDollarVols rows).sum / 10))) ∧
        ((eodPrevDollarVols rows).sum / 10 = 0 → m.rel_vol10 = none)) ∧
    (∀ (s : String) (rows : List OhlcRow) (m : TickerMetric),
        compute_metric_from_ohlc s rows = some m →
        (ohlcPrevDollarVols rows).length = 10 ∧
        lastN MIN_HISTORY_DAYS (ohlcDollarVols rows) =
          ohlcPrevDollarVols rows ++ [ohlcDollarVolToday rows] ∧
        m.avg_dollar_vol10 = some ((ohlcPrevDollarVols rows).sum / 10) ∧
        m.dollar_vol_today = some (ohlcDollarVolToday rows) ∧
        ((ohlcPrevDollarVols rows).sum / 10 ≠ 0 →
          m.rel_vol10 = some (ohlcDollarVolToday rows /
            ((ohlcPrevDollarVols rows).sum / 10))) ∧
        ((ohlcPrevDollarVols rows).sum / 10 = 0 → m.rel_vol10 = none)) := by
  constructor
  · intro s rows m hm
    have hge : MIN_HISTORY_DAYS ≤ (validEodRows rows).length := by
      by_contra hlt
      push_neg at hlt
      rw [compute_metrics_none s rows hlt] at hm
      exact Option.noConfusion hm
    rw [compute_metrics_eq s rows hge] at hm
    obtain rfl := (Option.some.inj hm).symm
    have havg : eodAvgDollarVol10 rows = (eodPrevDollarVols rows).sum / 10 := by
      unfold eodAvgDollarVol10
      rw [lastN_eq_self 10 (eodPrevDollarVols rows)
        (le_of_eq (eodPrevDollarVols_length rows hge))]
    refine ⟨eodPrevDollarVols_length rows hge, ?_, ?_, rfl, ?_, ?_⟩
    · exact lastN_decomp MIN_HISTORY_DAYS (eodDollarVols rows) 0
        (by simp [MIN_HISTORY_DAYS])
        (by rw [eodDollarVols_length]; exact hge)
    · simp [havg]
    · intro hne
      have hs : (eodPrevDollarVols rows).sum ≠ 0 := by
        intro h0
        apply hne
        rw [h0]
        norm_num
      simp [havg, hs]
    · intro hz
      simp only [← havg] at hz ⊢
      simp [hz]
  · intro s rows m hm
    have hge : MIN_HISTORY_DAYS ≤ (validOhlcRows rows).length := by
      by_contra hlt
      push_neg at hlt
      rw [compute_metric_from_ohlc_none s rows hlt] at hm
      exact Option.noConfusion hm
    rw [compute_metric_from_ohlc_eq s rows hge] at hm
    obtain rfl := (Option.some.inj hm).symm
    have havg : ohlcAvgDollarVol10 rows = (ohlcPrevDollarVols rows).sum / 10 := by
      unfold ohlcAvgDollarVol10
      rw [lastN_eq_self 10 (ohlcPrevDollarVols rows)
        (le_of_eq (ohlcPrevDollarVols_length rows hge))]
    refine ⟨ohlcPrevDollarVols_length rows hge, ?_, ?_, rfl, ?_, ?_⟩
    · exact lastN_decomp MIN_HISTORY_DAYS (ohlcDollarVols rows) 0
        (by simp [MIN_HISTORY_DAYS])
        (by rw [ohlcDollarVols_length]; exact hge)
    · simp [havg]
    · intro hne
      have hs : (ohlcPrevDollarVols rows).sum ≠ 0 := by
        intro h0
        apply hne
        rw [h0]
        norm_num
      simp [havg, hs]
    · intro hz
      simp only [← havg] at hz ⊢
      simp [hz]

theorem relvol_spec_witness :
    ((compute_metrics "AAA" (eodRowsN 11)).getD default).avg_dollar_vol10 =
      some ((eodPrevDollarVols (eodRowsN 11)).sum / 10) ∧
    ((compute_metric_from_ohlc "AAA" (ohlcRowsN 11)).getD
        default).avg_dollar_vol10 =
      some ((ohlcPrevDollarVols (ohlcRowsN 11)).sum / 10) :=
  ⟨(relvol_spec.1 "AAA" (eodRowsN 11)
      ((compute_metrics "AAA" (eodRowsN 11)).getD default) (by rfl)).2.2.1,
   (relvol_spec.2 "AAA" (ohlcRowsN 11)
      ((compute_metric_from_ohlc "AAA" (ohlcRowsN 11)).getD default)
      (by rfl)).2.2.1⟩

/-! ## Failure tracking: `determine_inactive` (eod_snapshot.py lines 200-226)
and `_determine_inactive` (sector_snapshot.py lines 189-217)

Timestamps are modelled as integers measured in days, so
`timedelta(days=FAILURE_WINDOW_DAYS)` is the integer `FAILURE_WINDOW_DAYS`
and `cutoff = now - FAILURE_WINDOW_DAYS`.  A `none` `last_failure` models a
NULL column or an unparseable string (the `except` branches of the
sources). -/

/-- One value of the eod job's `failure_state` dict. -/
structure FailInfo where
  failure_count : Option Int
  last_failure : Option Int
deriving DecidableEq, Repr

/-- `last_failure` lies inside the rolling window ending at `now`. -/
def withinWindowB (lf : Option Int) (now : Int) : Bool :=
  match lf with
  | none => false
  | some t => now - FAILURE_WINDOW_DAYS ≤ t

/-- The loop body of `determine_inactive`: skip when the count is below the
threshold; add when the timestamp is missing/unparseable or on/after the
cutoff. -/
def inactiveStep (now : Int) (acc : List String) (p : String × FailInfo) :
    List String :=
  let count := p.2.failure_count.getD 0
  if count < FAILURE_THRESHOLD then acc
  else
    match p.2.last_failure with
    | none => acc.insert p.1
    | some lf => if now - FAILURE_WINDOW_DAYS ≤ lf then acc.insert p.1 else acc

/-- Embedding of `determine_inactive(state)` (eod variant). -/
def determine_inactive (state : List (String × FailInfo)) (now : Int) :
    List String :=
  state.foldl (inactiveStep now) []

/-- A failure record qualifies a symbol as inactive (eod variant). -/
def inactiveQual (info : FailInfo) (now : Int) : Bool :=
  (FAILURE_THRESHOLD ≤ info.failure_count.getD 0) &&
    (info.last_failure.isNone || withinWindowB info.last_failure now)

theorem inactiveStep_eq (now : Int) (acc : List String) (p : String × FailInfo) :
    inactiveStep now acc p =
      if inactiveQual p.2 now = true then acc.insert p.1 else acc := by
  rcases p with ⟨s, c, lf⟩
  cases lf with
  | none =>
      simp only [inactiveStep, inactiveQual, withinWindowB, Option.isNone_none,
        Bool.true_or, Bool.and_true]
      split_ifs <;> simp_all <;> omega
  | some t =>
      simp only [inactiveStep, inactiveQual, withinWindowB, Option.isNone_some,
        Bool.false_or]
      split_ifs <;> simp_all <;> omega

theorem mem_foldl_inactiveStep (now : Int) (state : List (String × FailInfo)) :
    ∀ (acc : List String) (s : String),
      s ∈ state.foldl (inactiveStep now) acc ↔
        s ∈ acc ∨ ∃ info, (s, info) ∈ state ∧ inactiveQual info now = true := by
  induction state with
  | nil => simp
  | cons p rest ih =>
      intro acc s
      simp only [List.foldl_cons, ih, inactiveStep_eq]
      by_cases hq : inactiveQual p.2 now = true
      · simp only [hq, if_true, List.mem_insert_iff, List.mem_cons]
        constructor
        · rintro ((rfl | hacc) | ⟨info, hmem, hqual⟩)
          · exact Or.inr ⟨p.2, Or.inl (Prod.ext rfl rfl), hq⟩
          · exact Or.inl hacc
          · exact Or.inr ⟨info, Or.inr hmem, hqual⟩
        · rintro (hacc | ⟨info, (heq | hmem), hqual⟩)
          · exact Or.inl (Or.inr hacc)
          · left; left
            have : s = p.1 := congrArg Prod.fst heq
            exact this
          · exact Or.inr ⟨info, hmem, hqual⟩
      · simp only [hq, if_false, List.mem_cons]
        constructor
        · rintro (hacc | ⟨info, hmem, hqual⟩)
          · exact Or.inl hacc
          · exact Or.inr ⟨info, Or.inr hmem, hqual⟩
        · rintro (hacc | ⟨info, (heq | hmem), hqual⟩)
          · exact Or.inl hacc
          · exfalso
            have : info = p.2 := congrArg Prod.snd heq
            rw [this] at hqual
            exact hq hqual
          · exact Or.inr ⟨info, hmem, hqual⟩

/-- The loop body of `_determine_inactive` (sector variant): rows carry
`(symbol, failure_count, last_failure)`; empty symbols and NULL counts are
skipped, and the added symbol is uppercased. -/
def inactiveRowStep (now : Int) (acc : List String)
    (p : String × Option Int × Option Int) : List String :=
  if p.1 = "" then acc
  else
    match p.2.1 with
    | none => acc
    | some count =>
      if count < FAILURE_THRESHOLD then acc
      else
        match p.2.2 with
        | none => acc.insert (pyUpper p.1)
        | some lf =>
            if now - FAILURE_WINDOW_DAYS ≤ lf then acc.insert (pyUpper p.1) else acc

/-- Embedding of `_determine_inactive(rows)` (sector variant). -/
def determine_inactive_rows (rows : List (String × Option Int × Option Int))
    (now : Int) : List String :=
  if rows.isEmpty then [] else rows.foldl (inactiveRowStep now) []

/-- A row qualifies its symbol as inactive (sector variant). -/
def inactiveRowQual (sym : String) (c lf : Option Int) (now : Int) : Bool :=
  (!(sym == "")) &&
    (match c with
     | none => false
     | some cv => (FAILURE_THRESHOLD ≤ cv) && (lf.isNone || withinWindowB lf now))

theorem inactiveRowStep_eq (now : Int) (acc : List String)
    (p : String × Option Int × Option Int) :
    inactiveRowStep now acc p =
      if inactiveRowQual p.1 p.2.1 p.2.2 now = true then acc.insert (pyUpper p.1)
      else acc := by
  rcases p with ⟨s, c, lf⟩
  cases c with
  | none => simp [inactiveRowStep, inactiveRowQual]
  | some cv =>
      cases lf with
      | none =>
          simp only [inactiveRowStep, inactiveRowQual, withinWindowB,
            Option.isNone_none, Bool.true_or, Bool.and_true]
          split_ifs <;> simp_all <;> omega
      | some t =>
          simp only [inactiveRowStep, inactiveRowQual, withinWindowB,
            Option.isNone_some, Bool.false_or]
          split_ifs <;> simp_all <;> omega

theorem mem_foldl_inactiveRowStep (now : Int)
    (rows : List (String × Option Int × Option Int)) :
    ∀ (acc : List String) (s : String),
      s ∈ rows.foldl (inactiveRowStep now) acc ↔
        s ∈ acc ∨ ∃ sym c lf, (sym, c, lf) ∈ rows ∧
          inactiveRowQual sym c lf now = true ∧ s = pyUpper sym := by
  induction rows with
  | nil => simp
  | cons p rest ih =>
      intro acc s
      simp only [List.foldl_cons, ih, inactiveRowStep_eq]
      by_cases hq : inactiveRowQual p.1 p.2.1 p.2.2 now = true
      · simp only [hq, if_true, List.mem_insert_iff, List.mem_cons]
        constructor
        · rintro ((rfl | hacc) | ⟨sym, c, lf, hmem, hqual, rfl⟩)
          · exact Or.inr ⟨p.1, p.2.1, p.2.2, Or.inl rfl, hq, rfl⟩
          · exact Or.inl hacc
          · exact Or.inr ⟨sym, c, lf, Or.inr hmem, hqual, rfl⟩
        · rintro (hacc | ⟨sym, c, lf, (heq | hmem), hqual, rfl⟩)
          · exact Or.inl (Or.inr hacc)
          · left; left
            have h1 : sym = p.1 := congrArg Prod.fst heq
            rw [h1]
          · exact Or.inr ⟨sym, c, lf, hmem, hqual, rfl⟩
      · simp only [hq, if_false, List.mem_cons]
        constructor
        · rintro (hacc | ⟨sym, c, lf, hmem, hqual, rfl⟩)
          · exact Or.inl hacc
          · exact Or.inr ⟨sym, c, lf, Or.inr hmem, hqual, rfl⟩
        · rintro (hacc | ⟨sym, c, lf, (heq | hmem), hqual, rfl⟩)
          · exact Or.inl hacc
          · exfalso
            have h1 : sym = p.1 := congrArg Prod.fst heq
            have h2 : (c, lf) = p.2 := congrArg Prod.snd heq
            have h3 : c = p.2.1 := congrArg Prod.fst h2
            have h4 : lf = p.2.2 := congrArg Prod.snd h2
            rw [h1, h3, h4] at hqual
            exact hq hqual
          · exact Or.inr ⟨sym, c, lf, hmem, hqual, rfl⟩

/-- C4 (as stated) fails on a record whose `last_failure` is missing: the
code marks the symbol inactive although its last failure is not within the
last 30 days (there is none at all). -/
theorem inactive_null_timestamp_counterexample :
    "AAA" ∈ determine_inactive [("AAA", ⟨some 3, none⟩)] 1000 ∧
    withinWindowB none 1000 = false := by
  constructor
  · decide
  · rfl

/-- C4 amended: the inactive set computed from the failure records is
exactly the set of symbols with `failure_count ≥ 3` whose `last_failure` is
either missing/unparseable or within the last 30 days; in particular a
symbol whose failures are all strictly older than 30 days is not inactive,
regardless of its failure count.  Both variants are characterised. -/
theorem determine_inactive_spec :
    (∀ (state : List (String × FailInfo)) (now : Int) (s : String),
        s ∈ determine_inactive state now ↔
          ∃ info, (s, info) ∈ state ∧
            FAILURE_THRESHOLD ≤ info.failure_count.getD 0 ∧
            (info.last_failure = none ∨ withinWindowB info.last_failure now = true)) ∧
    (∀ (state : List (String × FailInfo)) (now : Int) (s : String),
        (∀ info, (s, info) ∈ state →
          ∃ t, info.last_failure = some t ∧ t < now - FAILURE_WINDOW_DAYS) →
        s ∉ determine_inactive state now) ∧
    (∀ (rows : List (String × Option Int × Option Int)) (now : Int) (s : String),
        s ∈ determine_inactive_rows rows now ↔
          ∃ sym c lf, (sym, c, lf) ∈ rows ∧ sym ≠ "" ∧
            (∃ cv, c = some cv ∧ FAILURE_THRESHOLD ≤ cv) ∧
            (lf = none ∨ withinWindowB lf now = true) ∧ s = pyUpper sym) := by
  have hmain : ∀ (state : List (String × FailInfo)) (now : Int) (s : String),
      s ∈ determine_inactive state now ↔
        ∃ info, (s, info) ∈ state ∧
          FAILURE_THRESHOLD ≤ info.failure_count.getD 0 ∧
          (info.last_failure = none ∨ withinWindowB info.last_failure now = true) := by
    intro state now s
    rw [determine_inactive, mem_foldl_inactiveStep now state [] s]
    simp only [List.not_mem_nil, false_or]
    constructor
    · rintro ⟨info, hmem, hqual⟩
      simp only [inactiveQual, Bool.and_eq_true, Bool.or_eq_true,
        Option.isNone_iff_eq_none, decide_eq_true_eq] at hqual
      exact ⟨info, hmem, hqual.1, hqual.2⟩
    · rintro ⟨info, hmem, hcount, hlf⟩
      refine ⟨info, hmem, ?_⟩
      simp only [inactiveQual, Bool.and_eq_true, Bool.or_eq_true,
        Option.isNone_iff_eq_none, decide_eq_true_eq]
      exact ⟨hcount, hlf⟩
  refine ⟨hmain, ?_, ?_⟩
  · intro state now s hall hmem
    rcases (hmain state now s).mp hmem with ⟨info, hin, _, hlf⟩
    rcases hall info hin with ⟨t, ht, htlt⟩
    rcases hlf with hnone | hwin
    · rw [hnone] at ht; exact Option.noConfusion ht
    · rw [ht] at hwin
      simp only [withinWindowB, decide_eq_true_eq] at hwin
      omega
  · intro rows now s
    by_cases hempty : rows.isEmpty
    · have : rows = [] := List.isEmpty_iff.mp hempty
      subst this
      simp [determine_inactive_rows]
    · rw [determine_inactive_rows, if_neg hempty,
        mem_foldl_inactiveRowStep now rows [] s]
      simp only [List.not_mem_nil, false_or]
      constructor
      · rintro ⟨sym, c, lf, hmem, hqual, rfl⟩
        simp only [inactiveRowQual, Bool.and_eq_true, Bool.not_eq_true',
          beq_eq_false_iff_ne, ne_eq] at hqual
        rcases hqual with ⟨hsym, hrest⟩
        cases c with
        | none => simp at hrest
        | some cv =>
            simp only [Bool.and_eq_true, Bool.or_eq_true,
              Option.isNone_iff_eq_none, decide_eq_true_eq] at hrest
            exact ⟨sym, some cv, lf, hmem, hsym, ⟨cv, rfl, hrest.1⟩, hrest.2, rfl⟩
      · rintro ⟨sym, c, lf, hmem, hsym, ⟨cv, rfl, hcv⟩, hlf, rfl⟩
        refine ⟨sym, some cv, lf, hmem, ?_, rfl⟩
        simp only [inactiveRowQual, Bool.and_eq_true, Bool.not_eq_true',
          beq_eq_false_iff_ne, ne_eq, Bool.or_eq_true,
          Option.isNone_iff_eq_none, decide_eq_true_eq]
        exact ⟨hsym, hcv, hlf⟩

theorem determine_inactive_spec_witness :
    ("OLD" ∉ determine_inactive [("OLD", ⟨some 5, some 100⟩)] 1000) ∧
    ("NEW" ∈ determine_inactive [("NEW", ⟨some 3, some 995⟩)] 1000) := by
  constructor
  · exact determine_inactive_spec.2.1 [("OLD", ⟨some 5, some 100⟩)] 1000 "OLD"
      (by
        intro info hinfo
        simp only [List.mem_singleton, Prod.mk.injEq] at hinfo
        refine ⟨100, ?_, by decide⟩
        rw [hinfo.2])
  · exact (determine_inactive_spec.1 [("NEW", ⟨some 3, some 995⟩)] 1000 "NEW").mpr
      ⟨⟨some 3, some 995⟩, by decide, by decide, Or.inr (by decide)⟩

/-! ## `prune_old_rows` (eod_snapshot.py lines 555-563)

`DELETE FROM ticker_ohlc WHERE symbol = ? AND date < cutoff` with
`cutoff = date.today() - timedelta(days=PRUNE_DAYS)`; the derived cutoff
date is passed explicitly since the embedding has no calendar
arithmetic. -/

/-- A stored `ticker_ohlc` row (columns relevant to pruning and identity). -/
structure BarRow where
  symbol : String
  date : CalDate
  close : ℚ
  volume : ℚ
  dollar_volume : ℚ
deriving DecidableEq, Repr

/-- Embedding of `prune_old_rows(conn, symbol)`: keep exactly the rows not
matched by the DELETE predicate. -/
def prune_old_rows (table : List BarRow) (symbol : String) (cutoff : CalDate) :
    List BarRow :=
  table.filter fun r => !(r.symbol == symbol && r.date.blt cutoff)

/-- Eleven bars of "AAA", all in January 2024. -/
def oldBars : List BarRow :=
  (List.range 11).map fun i =>
    { symbol := "AAA", date := ⟨2024, 1, i + 1⟩, close := 1, volume := 1,
      dollar_volume := 1 }

/-- A cutoff later than every bar of `oldBars`. -/
def pruneCutoffWit : CalDate := ⟨2024, 6, 1⟩

/-- C7 (as stated) fails: a symbol whose 11 most recent (indeed only) bars
are all older than the cutoff loses every one of them to pruning — no
minimum history is preserved. -/
theorem prune_counterexample :
    oldBars.length = 11 ∧
    (∀ r ∈ oldBars, r.symbol = "AAA" ∧ r.date.blt pruneCutoffWit = true) ∧
    prune_old_rows oldBars "AAA" pruneCutoffWit = [] := by
  refine ⟨by decide, by decide, by decide⟩

/-- C7 amended: pruning keeps exactly the rows that either belong to a
different symbol or are dated on/after the retention cutoff; equivalently it
deletes exactly the given symbol's bars strictly older than the cutoff,
with no carve-out for the most recent `MIN_HISTORY_DAYS` bars. -/
theorem prune_old_rows_spec :
    (∀ (table : List BarRow) (symbol : String) (cutoff : CalDate) (r : BarRow),
        r ∈ prune_old_rows table symbol cutoff ↔
          r ∈ table ∧ (r.symbol ≠ symbol ∨ r.date.blt cutoff = false)) ∧
    (∀ (table : List BarRow) (symbol : String) (cutoff : CalDate) (r : BarRow),
        r ∈ table → r ∉ prune_old_rows table symbol cutoff →
          r.symbol = symbol ∧ r.date.blt cutoff = true) := by
  have hmain : ∀ (table : List BarRow) (symbol : String) (cutoff : CalDate)
      (r : BarRow),
      r ∈ prune_old_rows table symbol cutoff ↔
        r ∈ table ∧ (r.symbol ≠ symbol ∨ r.date.blt cutoff = false) := by
    intro table symbol cutoff r
    rw [prune_old_rows, List.mem_filter]
    constructor
    · rintro ⟨hm, hp⟩
      refine ⟨hm, ?_⟩
      by_cases hs : r.symbol = symbol
      · by_cases hb : r.date.blt cutoff = true
        · exfalso
          rw [Bool.not_eq_true'] at hp
          simp [hs, hb] at hp
        · exact Or.inr (Bool.eq_false_iff.mpr hb)
      · exact Or.inl hs
    · rintro ⟨hm, hcase⟩
      refine ⟨hm, ?_⟩
      rcases hcase with hs | hb
      · simp [hs]
      · simp [hb]
  refine ⟨hmain, ?_⟩
  intro table symbol cutoff r hin hout
  have hnot : ¬ (r.symbol ≠ symbol ∨ r.date.blt cutoff = false) := fun h =>
    hout ((hmain table symbol cutoff r).mpr ⟨hin, h⟩)
  constructor
  · by_contra hs
    exact hnot (Or.inl hs)
  · by_contra hb
    exact hnot (Or.inr (Bool.eq_false_iff.mpr hb))

theorem prune_old_rows_spec_witness :
    ({ symbol := "AAA", date := ⟨2024, 1, 1⟩, close := 1, volume := 1,
       dollar_volume := 1 } : BarRow).symbol = "AAA" ∧
    (({ symbol := "AAA", date := ⟨2024, 1, 1⟩, close := 1, volume := 1,
        dollar_volume := 1 } : BarRow).date.blt pruneCutoffWit) = true :=
  prune_old_rows_spec.2 oldBars "AAA" pruneCutoffWit
    { symbol := "AAA", date := ⟨2024, 1, 1⟩, close := 1, volume := 1,
      dollar_volume := 1 } (by decide) (by decide)

/-! ## `_atomic_write_file` (sector_snapshot.py lines 951-967) and
`_atomic_write` (eod_snapshot.py lines 303-318)

Both primitives perform the same sequence: create a temp file in the
scratch directory (`tempfile.mkstemp`, which picks a fresh name), write the
bytes, flush, fsync, `os.replace` the temp file over the destination, fsync
the directory; the `finally` block removes the temp file (ignoring
FileNotFoundError).  The filesystem is modelled as a path→content map;
flush/fsync/directory-fsync change no file content. -/

/-- A path → content map. -/
def FileSys : Type := List (String × String)

/-- Read a file. -/
def fsGet (fs : FileSys) (p : String) : Option String :=
  match fs with
  | [] => none
  | (q, v) :: rest => if q = p then some v else fsGet rest p

/-- Create or overwrite a file. -/
def fsSet (fs : FileSys) (p : String) (v : String) : FileSys :=
  match fs with
  | [] => [(p, v)]
  | (q, w) :: rest => if q = p then (p, v) :: rest else (q, w) :: fsSet rest p v

/-- Remove a file if present. -/
def fsErase (fs : FileSys) (p : String) : FileSys :=
  match fs with
  | [] => []
  | (q, w) :: rest => if q = p then fsErase rest p else (q, w) :: fsErase rest p

theorem fsGet_set_ne (fs : FileSys) (p q v : String) (h : p ≠ q) :
    fsGet (fsSet fs q v) p = fsGet fs p := by
  have hqp : ¬ q = p := fun hq => h hq.symm
  induction fs with
  | nil => simp only [fsSet, fsGet, if_neg hqp]
  | cons x rest ih =>
      rcases x with ⟨r, w⟩
      by_cases hr : r = q
      · subst hr
        simp only [fsSet, if_pos rfl, fsGet, if_neg hqp]
      · simp only [fsSet, if_neg hr, fsGet]
        by_cases hp : r = p
        · simp only [if_pos hp]
        · simp only [if_neg hp, ih]

theorem fsGet_erase_ne (fs : FileSys) (p q : String) (h : p ≠ q) :
    fsGet (fsErase fs q) p = fsGet fs p := by
  have hqp : ¬ q = p := fun hq => h hq.symm
  induction fs with
  | nil => rfl
  | cons x rest ih =>
      rcases x with ⟨r, w⟩
      by_cases hr : r = q
      · subst hr
        simp only [fsErase, if_pos rfl, ite_true, ih, fsGet, if_neg hqp]
      · simp only [fsErase, if_neg hr, fsGet]
        by_cases hp : r = p
        · simp only [if_pos hp]
        · simp only [if_neg hp, ih]

/-- The steps of the atomic-write primitive, in execution order. -/
inductive AwStep where
  | mkstemp
  | write
  | flush
  | fsync
  | rename
  | dirsync
deriving DecidableEq, Repr

/-- Position of a step in the execution order. -/
def AwStep.idx : AwStep → Nat
  | .mkstemp => 0
  | .write => 1
  | .flush => 2
  | .fsync => 3
  | .rename => 4
  | .dirsync => 5

/-- Filesystem effect of running the first `k` steps: mkstemp creates the
empty temp file, write fills it, flush/fsync change nothing, and rename
(`os.replace`) moves the temp file over the destination. -/
def atomicSteps (fs : FileSys) (dest tmp : String) (data : String) (k : Nat) :
    FileSys :=
  let f1 := if 1 ≤ k then fsSet fs tmp "" else fs
  let f2 := if 2 ≤ k then fsSet f1 tmp data else f1
  let f3 := if 5 ≤ k then fsSet (fsErase f2 tmp) dest data else f2
  f3

/-- Embedding of `_atomic_write_file`/`_atomic_write`.  With `failAt = none`
all six steps run; with `failAt = some s` exactly the steps before `s`
run and `s` raises.  Either way the `finally` block then removes the temp
file. -/
def atomic_write (fs : FileSys) (dest tmp : String) (data : String)
    (failAt : Option AwStep) : FileSys :=
  let k := match failAt with
    | none => 6
    | some s => s.idx
  fsErase (atomicSteps fs dest tmp data k) tmp

/-- C2: if the atomic-write primitive fails at any step up to and including
the rename itself (temp-file creation, write, flush, fsync, rename), every
path other than the fresh temp file — in particular the pre-existing
destination file and its checksum file — keeps exactly its previous
content. -/
theorem atomic_write_crash_safety (fs : FileSys) (dest tmp data : String)
    (s : AwStep) (hstep : s.idx ≤ AwStep.rename.idx)
    (ck : String) (hdest : dest ≠ tmp) (hck : ck ≠ tmp) :
    (∀ p, p ≠ tmp →
      fsGet (atomic_write fs dest tmp data (some s)) p = fsGet fs p) ∧
    fsGet (atomic_write fs dest tmp data (some s)) dest = fsGet fs dest ∧
    fsGet (atomic_write fs dest tmp data (some s)) ck = fsGet fs ck := by
  have hall : ∀ p, p ≠ tmp →
      fsGet (atomic_write fs dest tmp data (some s)) p = fsGet fs p := by
    intro p hp
    have hk : ¬ 5 ≤ s.idx := by
      have h4 : AwStep.rename.idx = 4 := rfl
      rw [h4] at hstep
      omega
    simp only [atomic_write, atomicSteps, hk, if_false]
    by_cases h1 : 1 ≤ s.idx
    · by_cases h2 : 2 ≤ s.idx
      · simp only [h1, h2, if_true]
        rw [fsGet_erase_ne _ _ _ hp, fsGet_set_ne _ _ _ _ hp, fsGet_set_ne _ _ _ _ hp]
      · simp only [h1, h2, if_true, if_false]
        rw [fsGet_erase_ne _ _ _ hp, fsGet_set_ne _ _ _ _ hp]
    · have h2 : ¬ 2 ≤ s.idx := by omega
      simp only [h1, h2, if_false]
      rw [fsGet_erase_ne _ _ _ hp]
  exact ⟨hall, hall dest hdest, hall ck hck⟩

theorem atomic_write_crash_safety_witness :
    fsGet (atomic_write [("snap.json", "old"), ("snap.json.sha256", "oldsum")]
        "snap.json" "tmp.123" "new" (some AwStep.rename)) "snap.json" =
      some "old" ∧
    fsGet (atomic_write [("snap.json", "old"), ("snap.json.sha256", "oldsum")]
        "snap.json" "tmp.123" "new" (some AwStep.rename)) "snap.json.sha256" =
      some "oldsum" := by
  have h := atomic_write_crash_safety
    [("snap.json", "old"), ("snap.json.sha256", "oldsum")]
    "snap.json" "tmp.123" "new" AwStep.rename (by decide)
    "snap.json.sha256" (by decide) (by decide)
  exact ⟨h.2.1.trans (by decide), h.2.2.trans (by decide)⟩

/-! ## `AsyncTTLCache.get_or_set` (engine/cache.py lines 83-134)

Model notes, justified against the source:
- Each key's critical section (the `async with lock:` block) is serialized
  by the per-key `asyncio.Lock`, so N concurrent callers execute their
  critical sections in some serial order.
- The `_InFlight` objects registered under `_meta_lock` are never awaited:
  no call to `.event.wait()` exists anywhere in engine/cache.py, so the
  in-flight registry has no effect on any caller's returned value and is
  omitted from the state.
- The modelled scenario is the claim's: N callers on one key arriving
  together (all miss the pre-lock fast path, which coincides with the
  re-check under the lock) with time frozen at `now` for the episode, so
  "before TTL expiry" holds whenever `0 < ttl`.
- The `persist` branch and `_evict_if_needed` (irrelevant for a single key
  far below `max_size`) are omitted.
The cache state for the key is `Option (expires_at × value)`; a fetch
outcome is `Except`.  The third component counts fetcher invocations. -/

/-- One caller's critical section: re-check the entry (`hit[0] > now`),
otherwise invoke the fetcher; a successful fetch stores
`(now + ttl, value)`, a failing fetch stores nothing and re-raises. -/
def get_or_set_locked {α ε : Type} (now ttl : ℚ) (st : Option (ℚ × α))
    (f : Except ε α) : Except ε α × Option (ℚ × α) × Nat :=
  let hitVal : Option α :=
    match st with
    | some (expires, v) => if now < expires then some v else none
    | none => none
  match hitVal with
  | some v => (Except.ok v, st, 0)
  | none =>
    match f with
    | Except.ok v => (Except.ok v, some (now + ttl, v), 1)
    | Except.error e => (Except.error e, st, 1)

/-- Serial execution of `n` waiting callers' critical sections; `f i` is the
outcome of the `i`-th fetcher invocation and `used` counts invocations so
far.  Returns every caller's result, the final entry, and the total
invocation count. -/
def run_get_or_set {α ε : Type} (now ttl : ℚ) (f : Nat → Except ε α) :
    Nat → Option (ℚ × α) → Nat → List (Except ε α) × Option (ℚ × α) × Nat
  | 0, st, used => ([], st, used)
  | Nat.succ k, st, used =>
      let step := get_or_set_locked now ttl st (f used)
      let rest := run_get_or_set now ttl f k step.2.1 (used + step.2.2)
      (step.1 :: rest.1, rest.2.1, rest.2.2)

theorem run_get_or_set_hit {α ε : Type} (now ttl : ℚ) (f : Nat → Except ε α)
    (v : α) (httl : 0 < ttl) :
    ∀ (k : Nat) (used : Nat),
      run_get_or_set now ttl f k (some (now + ttl, v)) used =
        (List.replicate k (Except.ok v), some (now + ttl, v), used) := by
  intro k
  induction k with
  | zero => intro used; rfl
  | succ m ih =>
      intro used
      have hlt : now < now + ttl := by linarith
      simp only [run_get_or_set, get_or_set_locked, if_pos hlt, ih,
        List.replicate_succ, Nat.add_zero]

/-- C6 (as stated) fails in the error case: with two concurrent callers
whose fetches fail, the fetcher is invoked twice — each waiter retries
upstream instead of receiving the first call's propagated error (the
`_InFlight` error channel is never read). -/
theorem cache_error_retry_counterexample :
    (run_get_or_set (0 : ℚ) 1
        (fun _ => (Except.error "boom" : Except String ℚ)) 2 none 0).2.2 = 2 ∧
    (2 : Nat) ≠ 1 := by
  constructor
  · rfl
  · decide

/-- C6 amended: N concurrent `get_or_set` callers on one key before TTL
expiry with a succeeding fetcher invoke the fetcher exactly once and all
receive that same value; but when every fetch fails, each of the N callers
invokes the fetcher itself (N upstream invocations), each receiving its own
fetch's error rather than one propagated error. -/
theorem cache_coalescing_spec {α ε : Type} (now ttl : ℚ)
    (f : Nat → Except ε α) :
    (∀ (v : α) (n : Nat), 0 < ttl → f 0 = Except.ok v →
      run_get_or_set now ttl f (n + 1) none 0 =
        (List.replicate (n + 1) (Except.ok v), some (now + ttl, v), 1)) ∧
    (∀ (e : ε) (n : Nat), (∀ i, f i = Except.error e) →
      run_get_or_set now ttl f n none 0 =
        (List.replicate n (Except.error e), none, n)) := by
  constructor
  · intro v n httl hf
    simp only [run_get_or_set, get_or_set_locked, hf]
    rw [run_get_or_set_hit now ttl f v httl n 1]
    simp [List.replicate_succ]
  · intro e n hf
    suffices h : ∀ (k : Nat) (used : Nat),
        run_get_or_set now ttl f k none used =
          (List.replicate k (Except.error e), none, used + k) by
      simpa using h n 0
    intro k
    induction k with
    | zero => intro used; simp [run_get_or_set]
    | succ m ih =>
        intro used
        simp only [run_get_or_set, get_or_set_locked, hf used,
          List.replicate_succ, ih (used + 1)]
        have h3 : used + 1 + m = used + (m + 1) := by omega
        rw [h3]

theorem cache_coalescing_spec_witness :
    run_get_or_set (0 : ℚ) 1 (fun _ => (Except.ok (5 : ℚ) : Except String ℚ))
        (2 + 1) none 0 =
      (List.replicate (2 + 1) (Except.ok (5 : ℚ)), some (0 + 1, (5 : ℚ)), 1) ∧
    run_get_or_set (0 : ℚ) 1 (fun _ => (Except.error "x" : Except String ℚ))
        4 none 0 =
      (List.replicate 4 (Except.error "x"), none, 4) :=
  ⟨(cache_coalescing_spec (0 : ℚ) 1 (fun _ => Except.ok (5 : ℚ))).1 5 2
      (by norm_num) rfl,
   (cache_coalescing_spec (0 : ℚ) 1 (fun _ => Except.error "x")).2 "x" 4
      (fun _ => rfl)⟩

/-! ## The pydantic schemas (app/schemas/sector_volume.py) and
`aggregate_sectors` (app/services/sector_snapshot.py lines 601-772)

`TickerMetricDTO` declares exactly the fields below; `aggregate_sectors`
also passes `adr20Pct`/`ytdGainToHighPct`/`ytdOffHighPct`/`ralphScore`
keyword arguments, and `SectorVolumeDTO` is likewise passed
`change5d_weighted`, but pydantic models silently ignore keyword arguments
that are not declared fields, so none of those survive into the DTOs. -/

/-- `SectorIn`. -/
structure SectorIn where
  id : String
  name : String
  tickers : List String
deriving DecidableEq, Repr

/-- `TickerLeaderDTO`. -/
structure TickerLeaderDTO where
  ticker : String
  relVol10 : Option ℚ := none
  change1d : Option ℚ := none
deriving DecidableEq, Repr

/-- `DailyMetricDTO`. -/
structure DailyMetricDTO where
  date : String
  close : Option ℚ := none
  volume : Option ℚ := none
  dollarVolume : Option ℚ := none
deriving DecidableEq, Repr

/-- `TickerMetricDTO` (note: no adr20/ytd/ralph fields are declared). -/
structure TickerMetricDTO where
  ticker : String
  change1d : Option ℚ := none
  change5d : Option ℚ := none
  relVol10 : Option ℚ := none
  dollarVolToday : Option ℚ := none
  avgDollarVol10 : Option ℚ := none
  lastUpdated : Option String := none
  dollarVol5d : Option ℚ := none
  inactive : Bool := false
  history : List DailyMetricDTO := []
deriving DecidableEq, Repr

/-- `SectorVolumeDTO` (note: no `change5d_weighted` field is declared). -/
structure SectorVolumeDTO where
  id : String
  name : String
  members : List String
  relVol10_median : Option ℚ := none
  dollarVol_today_sum : Option ℚ := none
  avgDollarVol10_sum : Option ℚ := none
  change1d_median : Option ℚ := none
  change1d_weighted : Option ℚ := none
  leaders : List TickerLeaderDTO := []
  lastUpdated : Option String := none
  members_detail : List TickerMetricDTO := []
deriving DecidableEq, Repr

/-- Dict lookup on an association list (Python `dict.get`). -/
def lookupA {β : Type} (m : List (String × β)) (k : String) : Option β :=
  match m with
  | [] => none
  | (q, v) :: rest => if q = k then some v else lookupA rest k

/-- Stable ascending insertion for rationals. -/
def insertQ (x : ℚ) : List ℚ → List ℚ
  | [] => [x]
  | y :: ys => if y ≤ x then y :: insertQ x ys else x :: y :: ys

/-- Stable ascending sort for rationals. -/
def sortQ (xs : List ℚ) : List ℚ := xs.foldl (fun acc x => insertQ x acc) []

/-- `statistics.median`: middle element for odd length, mean of the two
middle elements for even length. -/
def medianQ (xs : List ℚ) : ℚ :=
  let s := sortQ xs
  let n := s.length
  if n % 2 = 1 then s.getD (n / 2) 0
  else (s.getD (n / 2 - 1) 0 + s.getD (n / 2) 0) / 2

/-- `_safe_median(values)`: `None` values are filtered in the source, but
the accumulated `rel_values`/`change_values` lists only ever contain
non-None floats, so the filter is the identity here. -/
def safe_median (values : List ℚ) : Option ℚ :=
  if values.isEmpty then none else some (medianQ values)

/-- `_compute_price_change(history, periods)` (lines 1065-1079). -/
def compute_price_change (history : List HistEntry) (periods : Nat) : Option ℚ :=
  if periods = 0 || history.isEmpty then none else
  let closes := history.filterMap (·.close)
  if closes.length ≤ periods then none else
  let base := closes.getD (closes.length - periods - 1) 0
  let latest := closes.getLastD 0
  if base = 0 then none else some ((latest / base - 1) * 100)

/-- `_compute_dollar_volume(history, window)` (lines 1082-1092). -/
def compute_dollar_volume (history : List HistEntry) (window : Nat) : Option ℚ :=
  if window = 0 || history.isEmpty then none else
  let dvs := history.filterMap (·.dollarVolume)
  if dvs.length < window then none else some (lastN window dvs).sum

/-- Python `max` over strings (lexicographic), for `max(last_dates)`. -/
def listMaxStr : List String → String
  | [] => ""
  | x :: xs => xs.foldl (fun a b => if a < b then b else a) x

/-- A metric's history entry rendered into the members-detail dict
(`entry.get("date", "")` etc). -/
def histToDaily (e : HistEntry) : DailyMetricDTO :=
  { date := e.date.getD "", close := e.close, volume := e.volume,
    dollarVolume := e.dollarVolume }

/-- The accumulator of the member loop in `aggregate_sectors`. -/
structure AggState where
  rel_values : List ℚ := []
  change_values : List ℚ := []
  sum_today : ℚ := 0
  today_count : Nat := 0
  sum_avg10 : ℚ := 0
  avg10_count : Nat := 0
  last_dates : List String := []
  leaders : List TickerLeaderDTO := []
  members_detail : List TickerMetricDTO := []
  weighted_sum : ℚ := 0
  weighted_total : ℚ := 0
  weighted_sum_5d : ℚ := 0
  weighted_total_5d : ℚ := 0
deriving DecidableEq, Repr

/-- The member-loop body of `aggregate_sectors` (lines 640-731). -/
def aggStep (metrics : List (String × TickerMetric)) (inactive : List String)
    (included : List String) (st : AggState) (symbol : String) : AggState :=
  match lookupA metrics symbol with
  | none =>
      { st with members_detail := st.members_detail ++
          [{ ticker := symbol, inactive := inactive.contains symbol }] }
  | some metric =>
      let st1 :=
        if included.contains symbol then
          let stA :=
            match metric.rel_vol10 with
            | some r =>
                { st with
                  rel_values := st.rel_values ++ [r],
                  leaders := st.leaders ++
                    [{ ticker := symbol, relVol10 := some r,
                       change1d := metric.change1d }] }
            | none =>
                { st with leaders := st.leaders ++
                    [{ ticker := symbol, relVol10 := none,
                       change1d := metric.change1d }] }
          let stB :=
            match metric.change1d with
            | some c =>
                let stX := { stA with change_values := stA.change_values ++ [c] }
                match metric.dollar_vol_today with
                | some dvt =>
                    if 0 < dvt then
                      { stX with
                        weighted_sum := stX.weighted_sum + c * dvt,
                        weighted_total := stX.weighted_total + dvt }
                    else stX
                | none => stX
            | none => stA
          let stC :=
            match metric.dollar_vol_today with
            | some dvt =>
                { stB with
                  sum_today := stB.sum_today + dvt,
                  today_count := stB.today_count + 1 }
            | none => stB
          let stD :=
            match metric.avg_dollar_vol10 with
            | some a =>
                { stC with
                  sum_avg10 := stC.sum_avg10 + a,
                  avg10_count := stC.avg10_count + 1 }
            | none => stC
          let stE :=
            match metric.last_date with
            | some ld =>
                if ld ≠ "" then { stD with last_dates := stD.last_dates ++ [ld] }
                else stD
            | none => stD
          stE
        else st
      let mc5 :=
        match metric.change5d with
        | some c => some c
        | none => compute_price_change metric.history 5
      let mdv5 :=
        match metric.dollar_vol5d with
        | some d => some d
        | none => compute_dollar_volume metric.history 5
      let st2 :=
        match mc5, mdv5 with
        | some c5, some d5 =>
            if 0 < d5 then
              { st1 with
                weighted_sum_5d := st1.weighted_sum_5d + c5 * d5,
                weighted_total_5d := st1.weighted_total_5d + d5 }
            else st1
        | _, _ => st1
      { st2 with members_detail := st2.members_detail ++
          [{ ticker := symbol, change1d := metric.change1d, change5d := mc5,
             relVol10 := metric.rel_vol10,
             dollarVolToday := metric.dollar_vol_today,
             avgDollarVol10 := metric.avg_dollar_vol10,
             lastUpdated := metric.last_date, dollarVol5d := mdv5,
             inactive := false,
             history := metric.history.map histToDaily }] }

/-- Descending key for the leaders sort (applied only after `None`
relVol10 entries are filtered out). -/
def leaderKey (l : TickerLeaderDTO) : ℚ := l.relVol10.getD 0

/-- Stable descending insertion: a new leader goes after all existing
leaders with key ≥ its own, matching Python stable sort with
`reverse=True`. -/
def insertLeaderDesc (x : TickerLeaderDTO) :
    List TickerLeaderDTO → List TickerLeaderDTO
  | [] => [x]
  | y :: ys =>
      if leaderKey x ≤ leaderKey y then y :: insertLeaderDesc x ys
      else x :: y :: ys

/-- `leaders.sort(key=..., reverse=True)`. -/
def sortLeadersDesc (xs : List TickerLeaderDTO) : List TickerLeaderDTO :=
  xs.foldl (fun acc x => insertLeaderDesc x acc) []

/-- `[t.strip().upper() for t in sector.tickers if t.strip()]`. -/
def normalizeTickers (tickers : List String) : List String :=
  (tickers.filter fun t => !(pyStrip t == "")).map fun t => pyUpper (pyStrip t)

/-- Embedding of `aggregate_sectors(sectors, metrics, inactive_symbols)`.
The metrics dict is an association list; the inactive set a list read via
membership. -/
def aggregate_sectors (sectors : List SectorIn)
    (metrics : List (String × TickerMetric)) (inactive_symbols : List String) :
    List SectorVolumeDTO :=
  sectors.map fun sector =>
    let members := normalizeTickers sector.tickers
    let active_members := members.filter fun s => !(inactive_symbols.contains s)
    let included_symbols := active_members.filter fun s =>
      (lookupA metrics s).isSome
    if included_symbols.isEmpty then
      { id := sector.id, name := sector.name, members := active_members,
        leaders := [] }
    else
      let st := active_members.foldl
        (aggStep metrics inactive_symbols included_symbols) {}
      let missing_members := members.filter fun s =>
        !(active_members.contains s)
      let details := st.members_detail ++
        missing_members.map fun s =>
          ({ ticker := s, inactive := true } : TickerMetricDTO)
      let leadersKept := st.leaders.filter fun l => l.relVol10.isSome
      { id := sector.id, name := sector.name, members := active_members,
        relVol10_median := safe_median st.rel_values,
        dollarVol_today_sum :=
          if st.today_count ≠ 0 then some st.sum_today else none,
        avgDollarVol10_sum :=
          if st.avg10_count ≠ 0 then some st.sum_avg10 else none,
        change1d_median := safe_median st.change_values,
        change1d_weighted :=
          if st.weighted_total ≠ 0 then some (st.weighted_sum / st.weighted_total)
          else none,
        leaders := (sortLeadersDesc leadersKept).take 3,
        lastUpdated :=
          if st.last_dates.isEmpty then none else some (listMaxStr st.last_dates),
        members_detail := details }

/-- The C5 counterexample sector: one configured member, which is inactive. -/
def c5Sector : SectorIn := { id := "tech", name := "Tech", tickers := ["AAA"] }

/-- C5 (as stated) fails: with the sector's only member inactive, the
emitted rollup's `members` list is empty — not equal to the configured
membership `["AAA"]` (inactive members are excluded from `members`). -/
theorem aggregate_inactive_membership_counterexample :
    (aggregate_sectors [c5Sector] [] ["AAA"]).map (·.members) = [[]] ∧
    normalizeTickers c5Sector.tickers = ["AAA"] ∧
    ([] : List String) ≠ ["AAA"] := by
  refine ⟨by decide, by decide, by decide⟩

/-- C5 amended: aggregation never drops a sector (one rollup per input
sector, in order), and for a sector in which no member has a computable
metric the rollup keeps the sector's id and name, its `members` list equal
to the configured membership *minus inactive symbols* (normalized), and
every numeric aggregate null; in particular when no member is inactive
(all merely data-less) `members` equals the full normalized configured
membership. -/
theorem aggregate_empty_sector_spec :
    (∀ (sectors : List SectorIn) (metrics : List (String × TickerMetric))
        (inactive : List String),
        (aggregate_sectors sectors metrics inactive).length = sectors.length) ∧
    (∀ (sector : SectorIn) (metrics : List (String × TickerMetric))
        (inactive : List String),
        ((normalizeTickers sector.tickers).filter
            (fun s => !(inactive.contains s))).filter
          (fun s => (lookupA metrics s).isSome) = [] →
        aggregate_sectors [sector] metrics inactive =
          [{ id := sector.id, name := sector.name,
             members := (normalizeTickers sector.tickers).filter
               (fun s => !(inactive.contains s)),
             leaders := [] }]) ∧
    (∀ (sector : SectorIn) (metrics : List (String × TickerMetric)),
        ((normalizeTickers sector.tickers).filter
          (fun s => (lookupA metrics s).isSome)) = [] →
        aggregate_sectors [sector] metrics [] =
          [{ id := sector.id, name := sector.name,
             members := normalizeTickers sector.tickers,
             leaders := [] }]) := by
  refine ⟨?_, ?_, ?_⟩
  · intro sectors metrics inactive
    simp [aggregate_sectors]
  · intro sector metrics inactive hempty
    simp only [aggregate_sectors, List.map_cons, List.map_nil, hempty,
      List.isEmpty_nil, if_true]
  · intro sector metrics hempty
    have hfilter : (normalizeTickers sector.tickers).filter
        (fun s => !(([] : List String).contains s)) =
        normalizeTickers sector.tickers := by
      simp [List.filter_eq_self]
    simp only [aggregate_sectors, List.map_cons, List.map_nil, hfilter, hempty,
      List.isEmpty_nil, if_true]

theorem aggregate_empty_sector_spec_witness :
    aggregate_sectors [c5Sector] [] [] =
      [{ id := "tech", name := "Tech", members := ["AAA"], leaders := [] }] := by
  have h := aggregate_empty_sector_spec.2.2 c5Sector [] (by decide)
  rw [h]
  decide

/-! ## `_patch_latest_snapshot_sync` (sector_snapshot.py lines 970-1050)

The snapshot payload is a JSON object; serialized values are modelled by
`Val`, sector entries by `SectorEntry` (id, members, and the remaining
serialized fields), and the payload by `Payload`.  `model_dump()` of the
pydantic DTOs is modelled by `dumpDetail`/`dumpRow`, which emit exactly the
declared fields — in particular a members-detail dict has *no* `adr20Pct`
key, so `member.get("adr20Pct")` is `None` (`Val.null`).  The typed
embedding cannot represent non-dict sector entries (which the source loop
drops) nor the trailing best-effort DuckDB mirror write, which does not
touch the JSON payload. -/

/-- A serialized JSON value occurring in the snapshot payload. -/
inductive Val where
  | null
  | num (q : ℚ)
  | str (s : String)
  | bval (b : Bool)
  | strList (xs : List String)
  | histList (xs : List DailyMetricDTO)
  | leaderList (xs : List TickerLeaderDTO)
  | detailList (xs : List TickerMetricDTO)
deriving DecidableEq, Repr

/-- Serialize an optional number. -/
def optNum (o : Option ℚ) : Val :=
  match o with
  | none => Val.null
  | some q => Val.num q

/-- Serialize an optional string. -/
def optStr (o : Option String) : Val :=
  match o with
  | none => Val.null
  | some s => Val.str s

/-- `model_dump()` of a `TickerMetricDTO`: exactly its declared fields. -/
def dumpDetail (d : TickerMetricDTO) : List (String × Val) :=
  [("ticker", Val.str d.ticker), ("change1d", optNum d.change1d),
   ("change5d", optNum d.change5d), ("relVol10", optNum d.relVol10),
   ("dollarVolToday", optNum d.dollarVolToday),
   ("avgDollarVol10", optNum d.avgDollarVol10),
   ("lastUpdated", optStr d.lastUpdated), ("dollarVol5d", optNum d.dollarVol5d),
   ("inactive", Val.bval d.inactive), ("history", Val.histList d.history)]

/-- `member.get(key)` (default `None`). -/
def dget (m : List (String × Val)) (k : String) : Val :=
  (lookupA m k).getD Val.null

/-- `member.get(key, default)`. -/
def dgetD (m : List (String × Val)) (k : String) (dflt : Val) : Val :=
  (lookupA m k).getD dflt

/-- The `ticker_metrics` record written for one non-inactive member (lines
1010-1020); note `"adr20_pct"` reads the absent `adr20Pct` dump key. -/
def mkPatchRecord (d : TickerMetricDTO) : List (String × Val) :=
  let dump := dumpDetail d
  [("last_date", dget dump "lastUpdated"),
   ("dollar_vol_today", dget dump "dollarVolToday"),
   ("avg_dollar_vol10", dget dump "avgDollarVol10"),
   ("rel_vol10", dget dump "relVol10"),
   ("change1d", dget dump "change1d"),
   ("change5d", dget dump "change5d"),
   ("adr20_pct", dget dump "adr20Pct"),
   ("dollar_vol5d", dget dump "dollarVol5d"),
   ("history", dgetD dump "history" (Val.histList []))]

/-- A serialized sector entry of the payload: its `id`, its `members`
array, and all remaining fields. -/
structure SectorEntry where
  id : String
  members : List String
  rest : List (String × Val)
deriving DecidableEq, Repr

/-- `model_dump()` of a `SectorVolumeDTO`, as a sector entry. -/
def dumpRow (r : SectorVolumeDTO) : SectorEntry :=
  { id := r.id, members := r.members,
    rest := [("name", Val.str r.name),
      ("relVol10_median", optNum r.relVol10_median),
      ("dollarVol_today_sum", optNum r.dollarVol_today_sum),
      ("avgDollarVol10_sum", optNum r.avgDollarVol10_sum),
      ("change1d_median", optNum r.change1d_median),
      ("change1d_weighted", optNum r.change1d_weighted),
      ("leaders", Val.leaderList r.leaders),
      ("lastUpdated", optStr r.lastUpdated),
      ("members_detail", Val.detailList r.members_detail)] }

/-- The snapshot payload object. -/
structure Payload where
  snapshot_date : Option String
  generated_at : String
  sectors : List SectorEntry
  sectors_count : Nat
  members_count : Nat
  ticker_metrics : List (String × List (String × Val))
  rest : List (String × Val)
deriving DecidableEq, Repr

instance : Inhabited Payload :=
  ⟨{ snapshot_date := none, generated_at := "", sectors := [],
     sectors_count := 0, members_count := 0, ticker_metrics := [], rest := [] }⟩

/-- Python dict assignment `d[k] = v`: replace in place or append. -/
def insertAssoc {β : Type} (m : List (String × β)) (k : String) (v : β) :
    List (String × β) :=
  match m with
  | [] => [(k, v)]
  | (q, w) :: rest =>
      if q = k then (k, v) :: rest else (q, w) :: insertAssoc rest k v

/-- The members-detail loop body (lines 1001-1020): skip inactive members
and blank tickers, otherwise assign the member's record under its
normalized symbol. -/
def patchDetailStep (acc : List (String × List (String × Val)))
    (d : TickerMetricDTO) : List (String × List (String × Val)) :=
  if d.inactive then acc
  else if pyStrip d.ticker = "" then acc
  else insertAssoc acc (pyUpper (pyStrip d.ticker)) (mkPatchRecord d)

/-- The normalized `ticker_metrics` key of a members-detail entry. -/
def detailKey (d : TickerMetricDTO) : String := pyUpper (pyStrip d.ticker)

/-- The keys written by the members-detail loop. -/
def patchedKeysL (ds : List TickerMetricDTO) : List String :=
  ds.filterMap fun d =>
    if d.inactive then none
    else if pyStrip d.ticker = "" then none
    else some (detailKey d)

/-- The keys the patch writes for a row. -/
def patchedKeys (row : SectorVolumeDTO) : List String :=
  patchedKeysL row.members_detail

/-- Embedding of `_patch_latest_snapshot_sync(updated_row)` acting on an
already-loaded payload; `now` is the new `generated_at` rendering.
Returns `none` when the row id is blank (`SnapshotNotFoundError`). -/
def patch_latest_snapshot_sync (payload : Payload) (row : SectorVolumeDTO)
    (now : String) : Option Payload :=
  if pyStrip row.id = "" then none else
  let row_entry := dumpRow row
  let replaced := payload.sectors.any fun e => e.id == row.id
  let new_sectors0 := payload.sectors.map fun e =>
    if e.id = row.id then row_entry else e
  let new_sectors := if replaced then new_sectors0 else new_sectors0 ++ [row_entry]
  let tm := row.members_detail.foldl patchDetailStep payload.ticker_metrics
  some { payload with
    sectors := new_sectors,
    sectors_count := new_sectors.length,
    members_count := (new_sectors.map fun e => e.members.length).sum,
    ticker_metrics := tm,
    generated_at := now }

theorem lookupA_insertAssoc_self {β : Type} (m : List (String × β)) (k : String)
    (v : β) : lookupA (insertAssoc m k v) k = some v := by
  induction m with
  | nil => simp [insertAssoc, lookupA]
  | cons p rest ih =>
      rcases p with ⟨q, w⟩
      by_cases hq : q = k
      · simp [insertAssoc, hq, lookupA]
      · simp [insertAssoc, hq, lookupA, ih]

theorem lookupA_insertAssoc_ne {β : Type} (m : List (String × β))
    (k k' : String) (v : β) (h : k ≠ k') :
    lookupA (insertAssoc m k' v) k = lookupA m k := by
  have hke : ¬ k' = k := fun hq => h hq.symm
  induction m with
  | nil => simp [insertAssoc, lookupA, hke]
  | cons p rest ih =>
      rcases p with ⟨q, w⟩
      by_cases hq : q = k'
      · subst hq
        simp [insertAssoc, lookupA, hke]
      · simp only [insertAssoc, if_neg hq, lookupA]
        by_cases hk : q = k
        · simp [hk]
        · simp [hk, ih]

theorem patchedKeysL_cons (d : TickerMetricDTO) (rest : List TickerMetricDTO) :
    patchedKeysL (d :: rest) =
      (if d.inactive then patchedKeysL rest
       else if pyStrip d.ticker = "" then patchedKeysL rest
       else detailKey d :: patchedKeysL rest) := by
  simp only [patchedKeysL, List.filterMap_cons]
  split_ifs <;> simp_all

theorem foldl_patchDetailStep_preserve (ds : List TickerMetricDTO) :
    ∀ (acc : List (String × List (String × Val))) (k : String),
      k ∉ patchedKeysL ds →
      lookupA (ds.foldl patchDetailStep acc) k = lookupA acc k := by
  induction ds with
  | nil => intro acc k _; rfl
  | cons d rest ih =>
      intro acc k hk
      rw [patchedKeysL_cons] at hk
      simp only [List.foldl_cons, patchDetailStep]
      split_ifs at hk with h1 h2
      · simp only [if_pos h1]
        exact ih acc k hk
      · simp only [if_neg h1, if_pos h2]
        exact ih acc k hk
      · simp only [if_neg h1, if_neg h2]
        simp only [List.mem_cons, not_or] at hk
        rw [ih _ k hk.2]
        exact lookupA_insertAssoc_ne acc k (detailKey d) (mkPatchRecord d) hk.1

theorem foldl_patchDetailStep_some (ds : List TickerMetricDTO) :
    ∀ (acc : List (String × List (String × Val))) (k : String),
      k ∈ patchedKeysL ds →
      ∃ d, lookupA (ds.foldl patchDetailStep acc) k = some (mkPatchRecord d) := by
  induction ds with
  | nil => intro acc k hk; simp [patchedKeysL] at hk
  | cons d rest ih =>
      intro acc k hk
      rw [patchedKeysL_cons] at hk
      simp only [List.foldl_cons, patchDetailStep]
      split_ifs at hk with h1 h2
      · simp only [if_pos h1]
        exact ih acc k hk
      · simp only [if_neg h1, if_pos h2]
        exact ih acc k hk
      · simp only [if_neg h1, if_neg h2]
        by_cases hrest : k ∈ patchedKeysL rest
        · exact ih _ k hrest
        · rcases List.mem_cons.mp hk with hkd | hkd
          · refine ⟨d, ?_⟩
            rw [foldl_patchDetailStep_preserve rest _ k hrest, hkd]
            exact lookupA_insertAssoc_self acc (detailKey d) (mkPatchRecord d)
          · exact absurd hkd hrest

theorem map_id_of_eq {α : Type} (l : List α) (f : α → α) (h : ∀ a ∈ l, f a = a) :
    l.map f = l := by
  induction l with
  | nil => rfl
  | cons x xs ih =>
      simp only [List.map_cons]
      rw [h x (List.mem_cons_self x xs),
        ih fun a ha => h a (List.mem_cons_of_mem x ha)]

/-- C1: a successful patch recomputes `sectors_count` as the length of the
resulting sector list and `members_count` as the summed member counts;
leaves every sector entry whose id differs from the patched row's id
unchanged at its position; turns every entry whose id matches into the
dumped row; replaces in place when a matching id exists and appends
otherwise; leaves `ticker_metrics` entries outside the patched member set
untouched; gives every non-inactive patched member an entry; and updates
`generated_at`. -/
theorem patch_spec (payload : Payload) (row : SectorVolumeDTO) (now : String)
    (out : Payload) (hp : patch_latest_snapshot_sync payload row now = some out) :
    out.sectors_count = out.sectors.length ∧
    out.members_count = (out.sectors.map fun e => e.members.length).sum ∧
    (∀ (i : Nat) (h : i < payload.sectors.length),
      (payload.sectors.get ⟨i, h⟩).id ≠ row.id →
      out.sectors.get? i = some (payload.sectors.get ⟨i, h⟩)) ∧
    (∀ e ∈ out.sectors, e.id = row.id → e = dumpRow row) ∧
    (if payload.sectors.any (fun e => e.id == row.id)
     then out.sectors.length = payload.sectors.length
     else out.sectors = payload.sectors ++ [dumpRow row]) ∧
    (∀ s, s ∉ patchedKeys row →
      lookupA out.ticker_metrics s = lookupA payload.ticker_metrics s) ∧
    (∀ s, s ∈ patchedKeys row →
      ∃ d, lookupA out.ticker_metrics s = some (mkPatchRecord d)) ∧
    out.generated_at = now := by
  by_cases hid : pyStrip row.id = ""
  · rw [patch_latest_snapshot_sync, if_pos hid] at hp
    exact Option.noConfusion hp
  · rw [patch_latest_snapshot_sync, if_neg hid] at hp
    obtain rfl := (Option.some.inj hp).symm
    refine ⟨rfl, rfl, ?_, ?_, ?_, ?_, ?_, rfl⟩
    · intro i h hne
      by_cases hrep : (payload.sectors.any fun e => e.id == row.id) = true
      · simp only [if_pos hrep, List.get?_map, List.get?_eq_get h,
          Option.map_some', if_neg hne]
      · have hlen : i < (payload.sectors.map fun e =>
            if e.id = row.id then dumpRow row else e).length := by
          simpa using h
        simp only [if_neg hrep]
        rw [List.get?_append hlen]
        simp only [List.get?_map, List.get?_eq_get h, Option.map_some',
          if_neg hne]
    · intro e he hide
      by_cases hrep : (payload.sectors.any fun e => e.id == row.id) = true
      · simp only [if_pos hrep] at he
        rcases List.mem_map.mp he with ⟨a, hamem, hfa⟩
        by_cases haid : a.id = row.id
        · rw [← hfa, if_pos haid]
        · rw [← hfa, if_neg haid] at hide ⊢
          exact absurd hide haid
      · simp only [if_neg hrep] at he
        rcases List.mem_append.mp he with hin | hin
        · rcases List.mem_map.mp hin with ⟨a, hamem, hfa⟩
          by_cases haid : a.id = row.id
          · rw [← hfa, if_pos haid]
          · rw [← hfa, if_neg haid] at hide ⊢
            exact absurd hide haid
        · simpa using hin
    · by_cases hrep : (payload.sectors.any fun e => e.id == row.id) = true
      · rw [if_pos hrep, if_pos hrep]
        simp
      · rw [if_neg hrep, if_neg hrep]
        have hall : ∀ a ∈ payload.sectors,
            (if a.id = row.id then dumpRow row else a) = a := by
          intro a hamem
          have hfa := List.any_eq_false.mp (Bool.eq_false_iff.mpr hrep) a hamem
          have hne3 : ¬ a.id = row.id := by simpa using hfa
          exact if_neg hne3
        rw [map_id_of_eq _ _ hall]
    · intro s hs
      exact foldl_patchDetailStep_preserve row.members_detail
        payload.ticker_metrics s hs
    · intro s hs
      exact foldl_patchDetailStep_some row.members_detail
        payload.ticker_metrics s hs

/-- C10: after a patch, each non-inactive member of the patched sector has
its global `ticker_metrics` entry overwritten with a record whose keys are
exactly last_date, dollar_vol_today, avg_dollar_vol10, rel_vol10, change1d,
change5d, adr20_pct, dollar_vol5d and history — the YTD/ralph keys are
absent (and adr20_pct is null, since the members-detail dump has no
adr20Pct field), even if the symbol's previous record carried them. -/
theorem patch_record_shape (payload : Payload) (row : SectorVolumeDTO)
    (now : String) (out : Payload)
    (hp : patch_latest_snapshot_sync payload row now = some out) :
    ∀ s, s ∈ patchedKeys row →
      ∃ r, lookupA out.ticker_metrics s = some r ∧
        r.map Prod.fst = ["last_date", "dollar_vol_today", "avg_dollar_vol10",
          "rel_vol10", "change1d", "change5d", "adr20_pct", "dollar_vol5d",
          "history"] ∧
        lookupA r "adr20_pct" = some Val.null ∧
        "ytd_gain_to_high_pct" ∉ r.map Prod.fst ∧
        "ytd_off_high_pct" ∉ r.map Prod.fst ∧
        "ralph_score" ∉ r.map Prod.fst := by
  intro s hs
  by_cases hid : pyStrip row.id = ""
  · rw [patch_latest_snapshot_sync, if_pos hid] at hp
    exact Option.noConfusion hp
  · rw [patch_latest_snapshot_sync, if_neg hid] at hp
    obtain rfl := (Option.some.inj hp).symm
    obtain ⟨d, hd⟩ := foldl_patchDetailStep_some row.members_detail
      payload.ticker_metrics s hs
    have hkeys : (mkPatchRecord d).map Prod.fst =
        ["last_date", "dollar_vol_today", "avg_dollar_vol10", "rel_vol10",
         "change1d", "change5d", "adr20_pct", "dollar_vol5d", "history"] := rfl
    refine ⟨mkPatchRecord d, hd, hkeys, rfl, ?_, ?_, ?_⟩ <;> rw [hkeys] <;> decide

/-- Concrete payload for the patch witnesses: sectors alpha and beta, with
an existing `ticker_metrics` entry for AAA that carries a YTD key. -/
def witPayload : Payload :=
  { snapshot_date := some "2024-01-05",
    generated_at := "2024-01-05T20:00:00+00:00",
    sectors := [
      { id := "alpha", members := ["AAA", "BBB"], rest := [] },
      { id := "beta", members := ["CCC"], rest := [("name", Val.str "Beta")] }],
    sectors_count := 2, members_count := 3,
    ticker_metrics := [
      ("AAA", [("last_date", Val.str "2024-01-04"),
               ("ytd_gain_to_high_pct", Val.num 5)]),
      ("CCC", [("last_date", Val.str "2024-01-04")])],
    rest := [] }

/-- Concrete updated rollup for the patch witnesses. -/
def witRow : SectorVolumeDTO :=
  { id := "alpha", name := "Alpha", members := ["AAA", "BBB"],
    members_detail := [
      { ticker := "AAA", change1d := some 3, relVol10 := some 2,
        dollarVolToday := some 90, lastUpdated := some "2024-01-05",
        inactive := false, history := [] },
      { ticker := "BBB", inactive := true }] }

/-- The patched payload at the witness inputs. -/
def witOut : Payload :=
  (patch_latest_snapshot_sync witPayload witRow "T1").getD default

theorem patch_spec_witness :
    witOut.generated_at = "T1" ∧
    lookupA witOut.ticker_metrics "CCC" = lookupA witPayload.ticker_metrics "CCC" := by
  have h := patch_spec witPayload witRow "T1" witOut (by rfl)
  exact ⟨h.2.2.2.2.2.2.2, h.2.2.2.2.2.1 "CCC" (by decide)⟩

theorem patch_record_shape_witness :
    (lookupA witOut.ticker_metrics "AAA").map (fun r => r.map Prod.fst) =
      some ["last_date", "dollar_vol_today", "avg_dollar_vol10", "rel_vol10",
        "change1d", "change5d", "adr20_pct", "dollar_vol5d", "history"] := by
  obtain ⟨r, hr, hkeys, _, _, _, _⟩ :=
    patch_record_shape witPayload witRow "T1" witOut (by rfl) "AAA" (by decide)
  rw [hr]
  simp [hkeys]

end MarketInsights
